import Mathlib

/-!
Verification of the ETL pipeline (src/etl/etl.py and src/airflow/dags/product.py)
against its natural-language specification.

The embedding models pandas DataFrames as column-ordered snapshots whose rows are
lists of loosely typed scalars, and models the retry envelope of `main` as a
bounded loop over an oracle of per-attempt outcomes.  Python floats are modelled
as rationals; the fixed-point format .02f is modelled with exact rational
rounding (ties round half up, a corner the claims never touch), and numeric
string parsing is modelled for decimal literals with optional sign and fraction.
-/

namespace Etl

/-- Loosely typed cell value of a table snapshot: string, integer, decimal
(modelled as a rational) or null, mirroring the design-note scalar taxonomy of
the source data frames. -/
inductive Scalar where
  | Null : Scalar
  | Str : String → Scalar
  | I : ℤ → Scalar
  | F : ℚ → Scalar
deriving DecidableEq

/-- Error class raised by transform and merge steps: pandas KeyError and
ValueError are grouped as the schema violations of the spec taxonomy. -/
inductive EtlErr where
  | SchemaError : EtlErr
deriving DecidableEq

/-- In-memory table snapshot: ordered column names plus rows, each row a list of
cells aligned positionally with the columns (the DataFrame model). -/
structure Snapshot where
  cols : List String
  rows : List (List Scalar)
deriving DecidableEq

/-! ### Small list utilities used by the embedding -/

/-- Replace the element at an index with the image under a function, leaving the
list unchanged when the index is out of range. -/
def modifyAt {α : Type} : ℕ → (α → α) → List α → List α
  | _, _, [] => []
  | 0, f, x :: xs => f x :: xs
  | n + 1, f, x :: xs => x :: modifyAt n f xs

/-- Remove the element at an index, leaving the list unchanged when the index is
out of range. -/
def dropAt {α : Type} : ℕ → List α → List α
  | _, [] => []
  | 0, _ :: xs => xs
  | n + 1, x :: xs => x :: dropAt n xs

/-- Concatenate the images of a list-valued function over a list (the row
expansion of a join). -/
def catMap {α β : Type} (f : α → List β) : List α → List β
  | [] => []
  | x :: xs => f x ++ catMap f xs

/-- Effectful map over a list in the Except monad, failing at the first failing
element, as a raising pandas column operation aborts the whole transform. -/
def mapE {ε α β : Type} (f : α → Except ε β) : List α → Except ε (List β)
  | [] => .ok []
  | x :: xs =>
    match f x, mapE f xs with
    | .ok y, .ok ys => .ok (y :: ys)
    | .error e, _ => .error e
    | .ok _, .error e => .error e

/-- Boolean membership test for column names. -/
def memB (c : String) : List String → Bool
  | [] => false
  | c' :: cs => if c' = c then true else memB c cs

/-- All columns of the first list occur in the second. -/
def allPresent : List String → List String → Bool
  | [], _ => true
  | c :: cs, cols => if memB c cols then allPresent cs cols else false

/-- Index of the first occurrence of a column name. -/
def colIndex : List String → String → Option ℕ
  | [], _ => none
  | c' :: cs, c => if c' = c then some 0 else (colIndex cs c).map (· + 1)

/-- Cell of a row at a named column; Null when the column or the cell is
missing (a situation a well-formed DataFrame never exhibits). -/
def cellAt (cols : List String) (r : List Scalar) (c : String) : Scalar :=
  match colIndex cols c with
  | some i => (r.get? i).getD .Null
  | none => .Null

/-- First-match association lookup for the rename map. -/
def assocLookup : List (String × String) → String → Option String
  | [], _ => none
  | (k, v) :: rest, c => if k = c then some v else assocLookup rest c

/-- Image of a column name under the rename map, defaulting to itself. -/
def applyRename (m : List (String × String)) (c : String) : String :=
  (assocLookup m c).getD c

/-! ### Pipeline orchestrator: the retry envelope of `main` -/

/-- Terminal state of one retried phase. -/
inductive PhaseState where
  | Succeeded : PhaseState
  | Exhausted : PhaseState
deriving DecidableEq

/-- True exactly on the Succeeded state. -/
def PhaseState.isSucc : PhaseState → Bool
  | .Succeeded => true
  | .Exhausted => false

/-- Kernel of the retry loop: run up to `fuel` attempts starting at attempt
number `i`, stopping at the first success; returns how many attempts ran and
the terminal state. -/
def retryAux (f : ℕ → Bool) : ℕ → ℕ → ℕ × PhaseState
  | 0, _ => (0, .Exhausted)
  | fuel + 1, i =>
    if f i then (1, .Succeeded)
    else
      let r := retryAux f fuel (i + 1)
      (r.1 + 1, r.2)

/-- The retry envelope of `main`: `for i in range(1, maxAttempts)` around one
phase attempt, breaking on success.  `range(1, maxAttempts)` yields
`maxAttempts - 1` iterations numbered from 1. -/
def retryLoop (maxAttempts : ℕ) (f : ℕ → Bool) : ℕ × PhaseState :=
  retryAux f (maxAttempts - 1) 1

/-- Per-attempt outcomes of the five phase bodies of `main`, plus whether the
extracted table list is empty.  Each oracle gives the outcome the phase body
would have on its i-th attempt, assuming its inputs are bound. -/
structure Oracles where
  s1 : ℕ → Bool
  s2 : ℕ → Bool
  s3 : ℕ → Bool
  s4 : ℕ → Bool
  s5 : ℕ → Bool
  tablesEmpty : Bool

/-- Outcome of one stage of `main`: loop iterations executed and terminal
state. -/
structure StageResult where
  iters : ℕ
  state : PhaseState
deriving DecidableEq

/-- Full observable outcome of one `main` run: the five stage results, the
number of invocations of each phase function (an attempt whose arguments are
unbound raises NameError before the function is called, so it does not invoke
the function), the success flag and the process exit code. -/
structure RunResult where
  st1 : StageResult
  st2 : StageResult
  st3 : StageResult
  st4 : StageResult
  st5 : StageResult
  inv1 : ℕ
  inv2 : ℕ
  inv3 : ℕ
  inv4 : ℕ
  inv5 : ℕ
  success : Bool
  exitCode : ℕ
deriving DecidableEq

/-- The `main` function of src/etl/etl.py: five sequential retry loops with
`max_attempts = 100`.  A stage whose loop exhausts does not abort the program:
control falls through to the next loop.  A later stage whose input variable was
never bound (because the binding stage never succeeded) fails each attempt with
NameError before its phase function is called; `init_dst_conn` takes no
argument and is always called.  When the transformed table list is empty the
load loop body runs zero times, so stage 5 succeeds without touching the
destination connection. -/
def mainRun (o : Oracles) : RunResult :=
  let r1 := retryLoop 100 o.s1
  let b1 := r1.2.isSucc
  let r2 := retryLoop 100 (fun i => b1 && o.s2 i)
  let b2 := r2.2.isSucc
  let r3 := retryLoop 100 (fun i => b2 && o.s3 i)
  let b3 := r3.2.isSucc
  let r4 := retryLoop 100 o.s4
  let b4 := r4.2.isSucc
  let r5 := retryLoop 100 (fun i => b3 && (o.tablesEmpty || (b4 && o.s5 i)))
  let succ := r5.2.isSucc
  { st1 := ⟨r1.1, r1.2⟩
    st2 := ⟨r2.1, r2.2⟩
    st3 := ⟨r3.1, r3.2⟩
    st4 := ⟨r4.1, r4.2⟩
    st5 := ⟨r5.1, r5.2⟩
    inv1 := r1.1
    inv2 := if b1 then r2.1 else 0
    inv3 := if b2 then r3.1 else 0
    inv4 := r4.1
    inv5 := if b3 && !o.tablesEmpty && b4 then r5.1 else 0
    success := succ
    exitCode := if succ then 0 else 1 }

/-! ### Numeric parsing and fixed-point formatting -/

/-- Decimal digit character of `n % 10`. -/
def digCh (n : ℕ) : Char :=
  ['0', '1', '2', '3', '4', '5', '6', '7', '8', '9'].getD (n % 10) '9'

/-- Fuelled digit expansion; the fuel only serves structural recursion and is
always sufficient at `n + 1`. -/
def natDigsAux : ℕ → ℕ → List Char
  | 0, _ => []
  | fuel + 1, n =>
    if n < 10 then [digCh n] else natDigsAux fuel (n / 10) ++ [digCh n]

/-- Decimal digits of a natural number, most significant first. -/
def natDigs (n : ℕ) : List Char := natDigsAux (n + 1) n

/-- Characters after the last dot of a character list, if a dot occurs. -/
def afterLastDot : List Char → Option (List Char)
  | [] => none
  | c :: cs =>
    match afterLastDot cs with
    | some t => some t
    | none => if c = '.' then some cs else none

/-- Numeric value of a digit character. -/
def digitVal (c : Char) : Option ℕ :=
  if '0' ≤ c ∧ c ≤ '9' then some (c.toNat - 48) else none

/-- Value of a nonempty all-digit character run. -/
def parseDigitsAux (acc : ℕ) : List Char → Option ℕ
  | [] => some acc
  | c :: cs =>
    match digitVal c with
    | some d => parseDigitsAux (acc * 10 + d) cs
    | none => none

/-- Value of a nonempty all-digit character list; none on an empty list or a
non-digit. -/
def parseDigits : List Char → Option ℕ
  | [] => none
  | cs => parseDigitsAux 0 cs

/-- Python `int` applied to a string: optional sign followed by digits. -/
def parseIntStr (s : String) : Option ℤ :=
  match s.data with
  | '-' :: cs => (parseDigits cs).map (fun n => -(n : ℤ))
  | '+' :: cs => (parseDigits cs).map (fun n => (n : ℤ))
  | cs => (parseDigits cs).map (fun n => (n : ℤ))

/-- Value of an unsigned decimal literal: digits with an optional single dot,
at least one digit overall. -/
def parseUnsigned (cs : List Char) : Option ℚ :=
  match cs.span (fun c => c ≠ '.') with
  | (ipart, []) => (parseDigits ipart).map (fun n => (n : ℚ))
  | (ipart, _ :: fpart) =>
    match ipart, fpart with
    | [], [] => none
    | _, _ =>
      let iv : Option ℕ := if ipart.isEmpty then some 0 else parseDigits ipart
      let fv : Option ℚ :=
        if fpart.isEmpty then some 0
        else (parseDigits fpart).map (fun n => (n : ℚ) / ((10 : ℚ) ^ fpart.length))
      match iv, fv with
      | some i, some f => some ((i : ℚ) + f)
      | _, _ => none

/-- Python `float` applied to a string, modelled for plain decimal literals
with an optional sign. -/
def parseDecStr (s : String) : Option ℚ :=
  match s.data with
  | '-' :: cs => (parseUnsigned cs).map (fun q => -q)
  | '+' :: cs => parseUnsigned cs
  | cs => parseUnsigned cs

/-- Truncation of a rational toward zero, the semantics of Python `int` on a
float, computed on numerator and denominator. -/
def truncQ (q : ℚ) : ℤ :=
  if 0 ≤ q.num then ((q.num.natAbs / q.den : ℕ) : ℤ)
  else -((q.num.natAbs / q.den : ℕ) : ℤ)

/-- The number of cents nearest to a rational amount: the floor of
`100 q + 1/2`, computed on numerator and denominator. -/
def centsOf (q : ℚ) : ℤ := (200 * q.num + (q.den : ℤ)).fdiv (2 * (q.den : ℤ))

/-- The fixed-point format .02f applied to a rational: sign, integer digits, a
dot and exactly two fractional digits, rounding to the nearest cent. -/
def formatFixed2 (q : ℚ) : String :=
  let c : ℤ := centsOf q
  let sign : List Char := if c < 0 then ['-'] else []
  let a := c.natAbs
  ⟨sign ++ natDigs (a / 100) ++ ['.'] ++ [digCh (a / 10), digCh a]⟩

/-- `astype(int)` applied to one cell: integers pass through, decimals truncate
toward zero, strings parse as integer literals, null raises. -/
def toIntScalar : Scalar → Option Scalar
  | .Null => none
  | .I n => some (.I n)
  | .F q => some (.I (truncQ q))
  | .Str s => (parseIntStr s).map .I

/-- `astype(float)` applied to one cell: numbers pass through, strings parse as
decimal literals; null is not reached by the transform because the fill step
precedes coercion. -/
def toFloatQ : Scalar → Option ℚ
  | .Null => none
  | .I n => some (n : ℚ)
  | .F q => some q
  | .Str s => parseDecStr s

/-- The composite currency coercion `astype(float).apply(format)` with the
.02f format string. -/
def floatFmt (x : Scalar) : Option Scalar :=
  (toFloatQ x).map (fun q => .Str (formatFixed2 q))

/-! ### Transform steps -/

/-- Projection of one row onto the retained columns, in retained order. -/
def projRow (retain cols : List String) (r : List Scalar) : List Scalar :=
  retain.map (cellAt cols r)

/-- Column projection `df[[...]]`: keep exactly the retained columns, failing
when one is absent from the input (pandas KeyError). -/
def project (retain : List String) (s : Snapshot) : Except EtlErr Snapshot :=
  if allPresent retain s.cols then
    .ok ⟨retain, s.rows.map (projRow retain s.cols)⟩
  else .error .SchemaError

/-- `fillna` on one cell: replace null by the default. -/
def fillCell (v x : Scalar) : Scalar := if x = .Null then v else x

/-- Apply a cell function to the named column of one row. -/
def mapColumn (cols : List String) (c : String) (f : Scalar → Scalar)
    (r : List Scalar) : List Scalar :=
  match colIndex cols c with
  | some i => modifyAt i f r
  | none => r

/-- Apply a list of per-column fills to one row, in list order. -/
def fillRow (cols : List String) (ps : List (String × Scalar))
    (r : List Scalar) : List Scalar :=
  ps.foldl (fun acc cv => mapColumn cols cv.1 (fillCell cv.2) acc) r

/-- The null-fill step: the block of `fillna(..., inplace=True)` column
operations applied to every row. -/
def fillList (ps : List (String × Scalar)) (s : Snapshot) : Snapshot :=
  ⟨s.cols, s.rows.map (fillRow s.cols ps)⟩

/-- `df.rename(columns=...)`: relabel columns, leaving row data unchanged. -/
def renameCols (m : List (String × String)) (s : Snapshot) : Snapshot :=
  ⟨s.cols.map (applyRename m), s.rows⟩

/-- Coerce the cell of one row at the named column, failing when the column or
cell is missing or when the cast fails (pandas KeyError and ValueError). -/
def coerceCellAt (cols : List String) (c : String) (g : Scalar → Option Scalar)
    (r : List Scalar) : Except EtlErr (List Scalar) :=
  match colIndex cols c with
  | none => .error .SchemaError
  | some i =>
    match r.get? i with
    | none => .error .SchemaError
    | some x =>
      match g x with
      | none => .error .SchemaError
      | some y => .ok (modifyAt i (fun _ => y) r)

/-- A column-wise `astype` assignment: coerce the named column of every row,
failing as a whole when any row fails. -/
def coerceCol (c : String) (g : Scalar → Option Scalar) (s : Snapshot) :
    Except EtlErr Snapshot :=
  match mapE (coerceCellAt s.cols c g) s.rows with
  | .ok rows => .ok ⟨s.cols, rows⟩
  | .error e => .error e

/-- The 25 retained columns of `tf_product`. -/
def productRetain : List String :=
  ["ProductKey", "ProductAlternateKey", "ProductSubcategoryKey",
   "WeightUnitMeasureCode", "SizeUnitMeasureCode", "EnglishProductName",
   "StandardCost", "FinishedGoodsFlag", "Color", "SafetyStockLevel",
   "ReorderPoint", "ListPrice", "Size", "SizeRange", "Weight",
   "DaysToManufacture", "ProductLine", "DealerPrice", "Class", "Style",
   "ModelName", "EnglishDescription", "StartDate", "EndDate", "Status"]

/-- The fifteen `fillna` operations of `tf_product`, in source order. -/
def productFills : List (String × Scalar) :=
  [("WeightUnitMeasureCode", .Str "NA"), ("ProductSubcategoryKey", .Str "0"),
   ("SizeUnitMeasureCode", .Str "NA"), ("StandardCost", .Str "0"),
   ("ListPrice", .Str "0"), ("ProductLine", .Str "NA"), ("Class", .Str "NA"),
   ("Style", .Str "NA"), ("Size", .Str "NA"), ("ModelName", .Str "NA"),
   ("EnglishDescription", .Str "NA"), ("DealerPrice", .Str "0"),
   ("Weight", .Str "0"), ("EndDate", .Str "NA"), ("Status", .Str "NA")]

/-- The rename map of `tf_product`. -/
def productRename : List (String × String) :=
  [("EnglishDescription", "Description"), ("EnglishProductName", "ProductName")]

/-- Output column list of `tf_product`: the retained columns after renaming. -/
def prodColsOut : List String := productRetain.map (applyRename productRename)

/-- The `tf_product` transform: projection, the fifteen null-fills, the rename,
then the three type coercions, in source order. -/
def tf_product (s : Snapshot) : Except EtlErr Snapshot := do
  let s1 ← project productRetain s
  let s2 := fillList productFills s1
  let s3 := renameCols productRename s2
  let s4 ← coerceCol "ProductSubcategoryKey" toIntScalar s3
  let s5 ← coerceCol "StandardCost" floatFmt s4
  coerceCol "ListPrice" floatFmt s5

/-- Retained columns of `tf_product_category`. -/
def categoryRetain : List String :=
  ["ProductCategoryKey", "ProductCategoryAlternateKey",
   "EnglishProductCategoryName"]

/-- Rename map of `tf_product_category`. -/
def categoryRename : List (String × String) :=
  [("EnglishProductCategoryName", "ProductCategoryName")]

/-- The `tf_product_category` transform: projection then rename. -/
def tf_product_category (s : Snapshot) : Except EtlErr Snapshot := do
  let s1 ← project categoryRetain s
  return renameCols categoryRename s1

/-- Retained columns of `tf_product_subcategory`. -/
def subcategoryRetain : List String :=
  ["ProductSubcategoryKey", "EnglishProductSubcategoryName",
   "ProductSubcategoryAlternateKey", "ProductCategoryKey"]

/-- Rename map of `tf_product_subcategory`. -/
def subcategoryRename : List (String × String) :=
  [("EnglishProductSubcategoryName", "ProductSubcategoryName")]

/-- The `tf_product_subcategory` transform: projection then rename. -/
def tf_product_subcategory (s : Snapshot) : Except EtlErr Snapshot := do
  let s1 ← project subcategoryRetain s
  return renameCols subcategoryRename s1

/-- One iteration of the `transform` loop body on the snapshot: three
independent `if` tests on the table name select the per-table transform; other
names pass through; an exception propagates. -/
def transformStep (name : String) (df : Snapshot) : Except EtlErr Snapshot :=
  match (if name = "DimProduct" then tf_product df else .ok df) with
  | .error e => .error e
  | .ok dfA =>
    match (if name = "DimProductCategory" then tf_product_category dfA else .ok dfA) with
    | .error e => .error e
    | .ok dfB =>
      if name = "DimProductSubcategory" then tf_product_subcategory dfB else .ok dfB

/-- One iteration of the `transform` loop: the transformed snapshot is appended
with its unchanged table name. -/
def transformPair (p : Snapshot × String) : Except EtlErr (Snapshot × String) :=
  match transformStep p.2 p.1 with
  | .error e => .error e
  | .ok df => .ok (df, p.2)

/-- The `transform` phase: apply the per-table transform to each extracted
(snapshot, name) pair, in order; an exception aborts the whole phase. -/
def transform (ts : List (Snapshot × String)) :
    Except EtlErr (List (Snapshot × String)) :=
  mapE transformPair ts

/-! ### Merge -/

/-- Inner join of two snapshots on a shared key column, pandas
`a.merge(b, on=k)`: for each left row in order, one output row per matching
right row, keeping the left key column and dropping the right one; a missing
key column raises. -/
def joinOn (a b : Snapshot) (k : String) : Except EtlErr Snapshot :=
  match colIndex a.cols k, colIndex b.cols k with
  | some _, some j =>
    .ok ⟨a.cols ++ dropAt j b.cols,
         catMap (fun ra =>
           ((b.rows.filter
               (fun rb => decide (cellAt a.cols ra k = cellAt b.cols rb k))).map
             (fun rb => ra ++ dropAt j rb))) a.rows⟩
  | _, _ => .error .SchemaError

/-- The `merge_tables` task: product joined with subcategory on
ProductSubcategoryKey, then with category on ProductCategoryKey. -/
def merge_tables (p ps pc : Snapshot) : Except EtlErr Snapshot := do
  let m1 ← joinOn p ps "ProductSubcategoryKey"
  joinOn m1 pc "ProductCategoryKey"

/-- Accumulated effect of the fill block on the cell at one row position:
every fill whose column resolves to that position is applied in order. -/
def applyFillsAt (cols : List String) (ps : List (String × Scalar)) (j : ℕ)
    (x : Scalar) : Scalar :=
  ps.foldl (fun y cv => if colIndex cols cv.1 = some j then fillCell cv.2 y else y) x

/-- The row-level effect of `tf_product` on one input row: projection and the
fill block are total, then the three coercions may fail. -/
def rowPipe (cols : List String) (r : List Scalar) :
    Except EtlErr (List Scalar) := do
  let r2 := fillRow productRetain productFills (projRow productRetain cols r)
  let r3 ← coerceCellAt prodColsOut "ProductSubcategoryKey" toIntScalar r2
  let r4 ← coerceCellAt prodColsOut "StandardCost" floatFmt r3
  coerceCellAt prodColsOut "ListPrice" floatFmt r4

/-- The fifteen filled columns under their output (post-rename) names. -/
def prodFillColsOut : List String :=
  ["WeightUnitMeasureCode", "ProductSubcategoryKey", "SizeUnitMeasureCode",
   "StandardCost", "ListPrice", "ProductLine", "Class", "Style", "Size",
   "ModelName", "Description", "DealerPrice", "Weight", "EndDate", "Status"]

/-- One concrete DimProduct row with nulls in every fillable column. -/
def rProd : List Scalar :=
  [.I 1, .Str "AK", .Null, .Null, .Null, .Str "Bike", .Null, .I 1, .Str "Red",
   .I 4, .I 3, .Null, .Null, .Str "42", .Null, .I 2, .Null, .Null, .Null,
   .Null, .Null, .Null, .Str "2020", .Null, .Null]

/-- Concrete one-row DimProduct snapshot with nulls in every fillable column,
used to instantiate the transform theorems. -/
def sProd : Snapshot := ⟨productRetain, [rProd]⟩

/-- The transform output on `sProd`. -/
def tProd : Snapshot :=
  match tf_product sProd with
  | .ok t => t
  | .error _ => ⟨[], []⟩

/-- The first output row of the transform on `sProd`. -/
def tRow0 : List Scalar :=
  match tProd.rows.get? 0 with
  | some r => r
  | none => []

/-- Concrete DimProductCategory snapshot with one extra column to be dropped by
projection. -/
def sCat : Snapshot :=
  ⟨["ProductCategoryKey", "ProductCategoryAlternateKey",
    "EnglishProductCategoryName", "Extra"],
   [[.I 2, .I 2, .Str "Bikes", .Null]]⟩

/-- The projection of `sCat` onto the category retain list. -/
def uCat : Snapshot :=
  match project categoryRetain sCat with
  | .ok u => u
  | .error _ => ⟨[], []⟩

/-- A snapshot missing most of the product retain columns. -/
def sC8 : Snapshot := ⟨["ProductKey"], [[.I 1]]⟩

/-- A snapshot with nulls for exercising the fill block. -/
def sC7 : Snapshot :=
  ⟨["StandardCost", "Weight"], [[.Null, .Str "5"], [.Str "1.5", .Null]]⟩

/-- A snapshot with all fifteen fill columns present and no nulls in them. -/
def sC7b : Snapshot :=
  ⟨["WeightUnitMeasureCode", "ProductSubcategoryKey", "SizeUnitMeasureCode",
    "StandardCost", "ListPrice", "ProductLine", "Class", "Style", "Size",
    "ModelName", "EnglishDescription", "DealerPrice", "Weight", "EndDate",
    "Status"],
   [[.Str "NA", .I 1, .Str "NA", .Str "1.00", .Str "2.00", .Str "R", .Str "H",
     .Str "U", .Str "58", .Str "M", .Str "D", .Str "3.00", .Str "2.5",
     .Str "NA", .Str "Current"]]⟩

/-- A table whose name matches no transform branch. -/
def sOther : Snapshot := ⟨["A"], [[.I 1]]⟩

/-- Transform phase input list: one category table, one unknown table. -/
def tsW : List (Snapshot × String) :=
  [(sCat, "DimProductCategory"), (sOther, "Other")]

/-- Transform phase output list on `tsW`. -/
def usW : List (Snapshot × String) :=
  match transform tsW with
  | .ok us => us
  | .error _ => []

/-- Merge counterexample: one product row. -/
def pC4 : Snapshot := ⟨["ProductKey", "ProductSubcategoryKey"], [[.I 10, .I 1]]⟩

/-- Merge counterexample: two subcategory rows with the same key. -/
def psC4 : Snapshot :=
  ⟨["ProductSubcategoryKey", "ProductCategoryKey"],
   [[.I 1, .I 2], [.I 1, .I 2]]⟩

/-- Merge counterexample: one category row. -/
def pcC4 : Snapshot := ⟨["ProductCategoryKey"], [[.I 2]]⟩

/-- Merge witness: two product rows, the second without a subcategory match. -/
def pW : Snapshot :=
  ⟨["ProductKey", "ProductSubcategoryKey"], [[.I 10, .I 1], [.I 11, .I 9]]⟩

/-- Merge witness: one subcategory row. -/
def psW : Snapshot :=
  ⟨["ProductSubcategoryKey", "ProductCategoryKey"], [[.I 1, .I 2]]⟩

/-- Merge witness: one category row. -/
def pcW : Snapshot :=
  ⟨["ProductCategoryKey", "ProductCategoryName"], [[.I 2, .Str "Bikes"]]⟩

/-- Merge output on the witness snapshots. -/
def mW : Snapshot :=
  match merge_tables pW psW pcW with
  | .ok m => m
  | .error _ => ⟨[], []⟩

/-- Claim C2 (counterexample input): the source connection fails on every
attempt, everything else would succeed. -/
def oC2 : Oracles :=
  ⟨fun _ => false, fun _ => true, fun _ => true, fun _ => true, fun _ => true,
   false⟩

/-- Claim C3 (counterexample input): source, extract and transform succeed but
the source holds none of the candidate tables, and the destination connection
fails on every attempt. -/
def oC3 : Oracles :=
  ⟨fun _ => true, fun _ => true, fun _ => true, fun _ => false, fun _ => true,
   true⟩

/-- Claim C3 (witness input): every phase body succeeds at once and at least
one table is extracted. -/
def oC3w : Oracles :=
  ⟨fun _ => true, fun _ => true, fun _ => true, fun _ => true, fun _ => true,
   false⟩

/-! ### Lemmas about the retry envelope -/

theorem retryAux_all_false (f : ℕ → Bool) (h : ∀ i, f i = false) :
    ∀ fuel start, retryAux f fuel start = (fuel, .Exhausted) := by
  intro fuel
  induction fuel with
  | zero => intro start; rfl
  | succ n ih =>
    intro start
    rw [retryAux, h start, ih (start + 1)]
    rfl

theorem retryAux_first_success (f : ℕ → Bool) :
    ∀ fuel start k, k < fuel → (∀ j, j < k → f (start + j) = false) →
      f (start + k) = true → retryAux f fuel start = (k + 1, .Succeeded) := by
  intro fuel
  induction fuel with
  | zero => intro start k hk; omega
  | succ n ih =>
    intro start k hk hfail hsucc
    cases k with
    | zero =>
      have h0 : f start = true := by simpa using hsucc
      simp [retryAux, h0]
    | succ m =>
      have h0 : f start = false := by
        have := hfail 0 (by omega)
        simpa using this
      have hrec : retryAux f n (start + 1) = (m + 1, .Succeeded) := by
        apply ih (start + 1) m (by omega)
        · intro j hj
          have := hfail (j + 1) (by omega)
          simpa [Nat.add_assoc, Nat.add_comm 1 j] using this
        · simpa [Nat.add_assoc, Nat.add_comm 1 m] using hsucc
      simp [retryAux, h0, hrec]

theorem retryLoop_all_false (f : ℕ → Bool) (h : ∀ i, f i = false) :
    retryLoop 100 f = (99, .Exhausted) :=
  retryAux_all_false f h 99 1

theorem retryAux_iters_pos (f : ℕ → Bool) (fuel start : ℕ) :
    1 ≤ (retryAux f (fuel + 1) start).1 := by
  rw [retryAux]
  split
  · simp
  · simp

theorem retryLoop_iters_pos (f : ℕ → Bool) : 1 ≤ (retryLoop 100 f).1 :=
  retryAux_iters_pos f 98 1

theorem isSucc_eq_false_iff (st : PhaseState) :
    st.isSucc = false ↔ st = .Exhausted := by
  cases st <;> simp [PhaseState.isSucc]

theorem isSucc_eq_true_iff (st : PhaseState) :
    st.isSucc = true ↔ st = .Succeeded := by
  cases st <;> simp [PhaseState.isSucc]

/-- Claim C1: the frozen claim predicts that with `maxAttempts = 100` a phase
function failing on every invocation is invoked exactly 100 times, and that a
function failing `k < 100` times then succeeding is invoked `k + 1` times and
succeeds.  The loop `for i in range(1, max_attempts)` executes only 99
iterations: with the oracle that would succeed on its 100th invocation the
envelope stops at 99 invocations and Exhausted, and the always-failing oracle
is invoked 99 times, not 100. -/
theorem c1_retry_envelope_cex :
    retryLoop 100 (fun i => decide (100 ≤ i)) = (99, PhaseState.Exhausted)
    ∧ ((99, PhaseState.Exhausted) : ℕ × PhaseState) ≠ (100, PhaseState.Succeeded)
    ∧ retryLoop 100 (fun _ => false) = (99, PhaseState.Exhausted)
    ∧ (99 : ℕ) ≠ 100 := by
  refine ⟨rfl, by decide, rfl, by decide⟩

/-- Claim C1 (amended): inside the retry envelope with `maxAttempts = 100` the
phase body runs at most `maxAttempts - 1 = 99` times: a phase function that
fails `k < 99` times and then succeeds is invoked exactly `k + 1` times and the
phase succeeds, and a phase function that fails on every invocation is invoked
exactly 99 times and the phase ends in Exhausted. -/
theorem c1_retry_envelope (f : ℕ → Bool) :
    (∀ k, k < 99 → (∀ i, 1 ≤ i → i ≤ k → f i = false) → f (k + 1) = true →
      retryLoop 100 f = (k + 1, .Succeeded))
    ∧ ((∀ i, f i = false) → retryLoop 100 f = (99, .Exhausted)) := by
  constructor
  · intro k hk hfail hsucc
    show retryAux f 99 1 = (k + 1, .Succeeded)
    apply retryAux_first_success f 99 1 k hk
    · intro j hj
      exact hfail (1 + j) (by omega) (by omega)
    · simpa [Nat.add_comm 1 k] using hsucc
  · intro h
    exact retryLoop_all_false f h

theorem c1_retry_envelope_witness :
    retryLoop 100 (fun i => decide (i = 3)) = (3, .Succeeded)
    ∧ retryLoop 100 (fun _ => false) = (99, .Exhausted) := by
  constructor
  · exact (c1_retry_envelope (fun i => decide (i = 3))).1 2 (by decide)
      (fun i h1 h2 => by simp only [decide_eq_false_iff_not]; omega) (by decide)
  · exact (c1_retry_envelope (fun _ => false)).2 (fun _ => rfl)

/-! ### Lemmas about `mainRun` -/

theorem mainRun_st2_of_st1_exhausted (o : Oracles)
    (h : (mainRun o).st1.state = .Exhausted) :
    retryLoop 100 (fun i => (retryLoop 100 o.s1).2.isSucc && o.s2 i)
      = (99, .Exhausted) := by
  have h1 : (retryLoop 100 o.s1).2 = .Exhausted := h
  apply retryLoop_all_false
  intro i
  rw [h1]
  rfl

/-- Claim C2: the frozen claim says that once a phase exhausts its retry budget
no later phase is attempted and no later phase function is invoked.  In the
code the loops simply fall through: with the source connection exhausting,
stage 2 still runs its loop, and the stage 4 function `init_dst_conn` (which
takes no arguments) is invoked and even succeeds. -/
theorem c2_abort_cex :
    (mainRun oC2).st1.state = .Exhausted
    ∧ 1 ≤ (mainRun oC2).st2.iters
    ∧ (mainRun oC2).inv4 = 1
    ∧ (mainRun oC2).st4.state = .Succeeded := by
  refine ⟨by decide, by decide, by decide, by decide⟩

/-- Claim C2 (amended): after the first phase exhausts its retry budget the
pipeline does not abort: every later phase still runs its full retry loop.  The
phases whose input bindings are missing (extract, transform, load) fail every
attempt with an unbound name before their function is called, so their
functions are never invoked and they end Exhausted, and the run exits 1 — but
the destination-connection function, which needs no earlier result, is still
invoked. -/
theorem c2_no_abort (o : Oracles) (h : (mainRun o).st1.state = .Exhausted) :
    (mainRun o).inv2 = 0 ∧ (mainRun o).st2.iters = 99
    ∧ (mainRun o).st2.state = .Exhausted
    ∧ (mainRun o).inv3 = 0 ∧ (mainRun o).st3.iters = 99
    ∧ (mainRun o).st3.state = .Exhausted
    ∧ 1 ≤ (mainRun o).inv4
    ∧ (mainRun o).inv5 = 0 ∧ (mainRun o).st5.iters = 99
    ∧ (mainRun o).st5.state = .Exhausted
    ∧ (mainRun o).exitCode = 1 := by
  have h1 : (retryLoop 100 o.s1).2 = .Exhausted := h
  have hb1 : (retryLoop 100 o.s1).2.isSucc = false := by rw [h1]; rfl
  have h2 := mainRun_st2_of_st1_exhausted o h
  have hb2 : (retryLoop 100 (fun i => (retryLoop 100 o.s1).2.isSucc && o.s2 i)).2.isSucc
      = false := by rw [h2]; rfl
  have h3 : retryLoop 100
      (fun i => (retryLoop 100 (fun i => (retryLoop 100 o.s1).2.isSucc && o.s2 i)).2.isSucc
        && o.s3 i) = (99, .Exhausted) := by
    apply retryLoop_all_false
    intro i
    rw [hb2]
    rfl
  have hb3 : (retryLoop 100
      (fun i => (retryLoop 100 (fun i => (retryLoop 100 o.s1).2.isSucc && o.s2 i)).2.isSucc
        && o.s3 i)).2.isSucc = false := by rw [h3]; rfl
  refine ⟨?_, ?_, ?_, ?_, ?_, ?_, ?_, ?_, ?_, ?_, ?_⟩
  · show (if (retryLoop 100 o.s1).2.isSucc then _ else 0) = 0
    rw [hb1]
    simp
  · show (retryLoop 100 (fun i => (retryLoop 100 o.s1).2.isSucc && o.s2 i)).1 = 99
    rw [h2]
  · show (retryLoop 100 (fun i => (retryLoop 100 o.s1).2.isSucc && o.s2 i)).2 = .Exhausted
    rw [h2]
  · show (if (retryLoop 100 (fun i => (retryLoop 100 o.s1).2.isSucc && o.s2 i)).2.isSucc
        then _ else 0) = 0
    rw [hb2]
    simp
  · show (retryLoop 100 _).1 = 99
    rw [h3]
  · show (retryLoop 100 _).2 = .Exhausted
    rw [h3]
  · exact retryLoop_iters_pos o.s4
  · show (if _ && !o.tablesEmpty && _ then _ else 0) = 0
    rw [hb3]
    simp
  · show (retryLoop 100 (fun i => _ && (o.tablesEmpty || _))).1 = 99
    rw [retryLoop_all_false _ (fun i => by rw [hb3]; rfl)]
  · show (retryLoop 100 (fun i => _ && (o.tablesEmpty || _))).2 = .Exhausted
    rw [retryLoop_all_false _ (fun i => by rw [hb3]; rfl)]
  · show (if (retryLoop 100 (fun i => _ && (o.tablesEmpty || _))).2.isSucc then 0 else 1) = 1
    rw [retryLoop_all_false _ (fun i => by rw [hb3]; rfl)]
    rfl

theorem c2_no_abort_witness :
    (mainRun oC2).inv2 = 0 ∧ (mainRun oC2).st2.iters = 99
    ∧ (mainRun oC2).st2.state = .Exhausted
    ∧ (mainRun oC2).inv3 = 0 ∧ (mainRun oC2).st3.iters = 99
    ∧ (mainRun oC2).st3.state = .Exhausted
    ∧ 1 ≤ (mainRun oC2).inv4
    ∧ (mainRun oC2).inv5 = 0 ∧ (mainRun oC2).st5.iters = 99
    ∧ (mainRun oC2).st5.state = .Exhausted
    ∧ (mainRun oC2).exitCode = 1 :=
  c2_no_abort oC2 (by decide)

/-- Every stage is terminal: it either Succeeded or Exhausted. -/
theorem phaseState_cases (st : PhaseState) :
    st = .Succeeded ∨ st = .Exhausted := by
  cases st
  · exact Or.inl rfl
  · exact Or.inr rfl

/-- Claim C3: the frozen claim says the success flag is true iff every phase
reached Succeeded, and the exit code is 1 exactly when some phase was
Exhausted.  When the extracted table list is empty the load loop body runs
zero times and never touches the destination connection, so the run sets
`success` and exits 0 even though the destination-connection phase exhausted
its 99 attempts. -/
theorem c3_verdict_cex :
    (mainRun oC3).st4.state = .Exhausted
    ∧ (mainRun oC3).success = true
    ∧ (mainRun oC3).exitCode = 0 := by
  refine ⟨by decide, by decide, by decide⟩

/-- Claim C3 (amended): the success flag is true iff the connect-source,
extract, transform and load phases all reached Succeeded, and the exit code is
0 iff success and 1 iff the load phase was Exhausted.  When the extracted
table list is nonempty this agrees with the claim: success iff all five phases
Succeeded, and exit 1 iff some phase was Exhausted; with an empty table list
the load phase can succeed without the destination connection, so the
connect-destination phase is excepted. -/
theorem c3_verdict (o : Oracles) :
    ((mainRun o).exitCode = 0 ↔ (mainRun o).success = true)
    ∧ ((mainRun o).success = true ↔
        ((mainRun o).st1.state = .Succeeded ∧ (mainRun o).st2.state = .Succeeded
         ∧ (mainRun o).st3.state = .Succeeded ∧ (mainRun o).st5.state = .Succeeded))
    ∧ ((mainRun o).exitCode = 1 ↔ (mainRun o).st5.state = .Exhausted)
    ∧ (o.tablesEmpty = false →
        (((mainRun o).success = true ↔
           ((mainRun o).st1.state = .Succeeded ∧ (mainRun o).st2.state = .Succeeded
            ∧ (mainRun o).st3.state = .Succeeded ∧ (mainRun o).st4.state = .Succeeded
            ∧ (mainRun o).st5.state = .Succeeded))
         ∧ ((mainRun o).exitCode = 1 ↔
            ((mainRun o).st1.state = .Exhausted ∨ (mainRun o).st2.state = .Exhausted
             ∨ (mainRun o).st3.state = .Exhausted ∨ (mainRun o).st4.state = .Exhausted
             ∨ (mainRun o).st5.state = .Exhausted)))) := by
  set R1 := retryLoop 100 o.s1 with hR1
  set R2 := retryLoop 100 (fun i => R1.2.isSucc && o.s2 i) with hR2
  set R3 := retryLoop 100 (fun i => R2.2.isSucc && o.s3 i) with hR3
  set R4 := retryLoop 100 o.s4 with hR4
  set R5 := retryLoop 100 (fun i => R3.2.isSucc && (o.tablesEmpty || (R4.2.isSucc && o.s5 i)))
    with hR5
  have hst1 : (mainRun o).st1.state = R1.2 := rfl
  have hst2 : (mainRun o).st2.state = R2.2 := rfl
  have hst3 : (mainRun o).st3.state = R3.2 := rfl
  have hst4 : (mainRun o).st4.state = R4.2 := rfl
  have hst5 : (mainRun o).st5.state = R5.2 := rfl
  have hsucc : (mainRun o).success = R5.2.isSucc := rfl
  have hexit : (mainRun o).exitCode = (if R5.2.isSucc then 0 else 1) := rfl
  have chain21 : R1.2 = .Exhausted → R2.2 = .Exhausted := by
    intro h
    rw [hR2, retryLoop_all_false _ (fun i => by rw [h]; rfl)]
  have chain32 : R2.2 = .Exhausted → R3.2 = .Exhausted := by
    intro h
    rw [hR3, retryLoop_all_false _ (fun i => by rw [h]; rfl)]
  have chain53 : R3.2 = .Exhausted → R5.2 = .Exhausted := by
    intro h
    rw [hR5, retryLoop_all_false _ (fun i => by rw [h]; rfl)]
  have chain54 : o.tablesEmpty = false → R4.2 = .Exhausted → R5.2 = .Exhausted := by
    intro hemp h
    rw [hR5, retryLoop_all_false _ (fun i => by rw [h, hemp]; simp [PhaseState.isSucc])]
  rw [hst1, hst2, hst3, hst4, hst5, hsucc, hexit]
  refine ⟨?_, ?_, ?_, ?_⟩
  · cases R5.2 <;> simp [PhaseState.isSucc]
  · constructor
    · intro h5
      have h5' : R5.2 = .Succeeded := (isSucc_eq_true_iff _).mp h5
      have h3 : R3.2 = .Succeeded := by
        rcases phaseState_cases R3.2 with h | h
        · exact h
        · rw [chain53 h] at h5'
          exact absurd h5' (by simp)
      have h2 : R2.2 = .Succeeded := by
        rcases phaseState_cases R2.2 with h | h
        · exact h
        · rw [chain53 (by rw [chain32 h]) ] at h5'
          exact absurd h5' (by simp)
      have h1 : R1.2 = .Succeeded := by
        rcases phaseState_cases R1.2 with h | h
        · exact h
        · rw [chain53 (by rw [chain32 (chain21 h)])] at h5'
          exact absurd h5' (by simp)
      exact ⟨h1, h2, h3, h5'⟩
    · intro ⟨_, _, _, h5⟩
      rw [h5]
      rfl
  · cases R5.2 <;> simp [PhaseState.isSucc]
  · intro hemp
    constructor
    · constructor
      · intro h5
        have h5' : R5.2 = .Succeeded := (isSucc_eq_true_iff _).mp h5
        have h4 : R4.2 = .Succeeded := by
          rcases phaseState_cases R4.2 with h | h
          · exact h
          · rw [chain54 hemp h] at h5'
            exact absurd h5' (by simp)
        have hrest := ((isSucc_eq_true_iff _).mpr h5')
        have h3 : R3.2 = .Succeeded := by
          rcases phaseState_cases R3.2 with h | h
          · exact h
          · rw [chain53 h] at h5'
            exact absurd h5' (by simp)
        have h2 : R2.2 = .Succeeded := by
          rcases phaseState_cases R2.2 with h | h
          · exact h
          · rw [chain53 (by rw [chain32 h])] at h5'
            exact absurd h5' (by simp)
        have h1 : R1.2 = .Succeeded := by
          rcases phaseState_cases R1.2 with h | h
          · exact h
          · rw [chain53 (by rw [chain32 (chain21 h)])] at h5'
            exact absurd h5' (by simp)
        exact ⟨h1, h2, h3, h4, h5'⟩
      · intro ⟨_, _, _, _, h5⟩
        rw [h5]
        rfl
    · constructor
      · intro hx
        have h5 : R5.2 = .Exhausted := by
          rcases phaseState_cases R5.2 with h | h
          · rw [h] at hx
            exact absurd hx (by simp [PhaseState.isSucc])
          · exact h
        exact Or.inr (Or.inr (Or.inr (Or.inr h5)))
      · intro hx
        have h5 : R5.2 = .Exhausted := by
          rcases hx with h | h | h | h | h
          · exact chain53 (chain32 (chain21 h))
          · exact chain53 (chain32 h)
          · exact chain53 h
          · exact chain54 hemp h
          · exact h
        rw [h5]
        rfl

theorem c3_verdict_witness :
    ((mainRun oC3w).success = true ↔
      ((mainRun oC3w).st1.state = .Succeeded ∧ (mainRun oC3w).st2.state = .Succeeded
       ∧ (mainRun oC3w).st3.state = .Succeeded ∧ (mainRun oC3w).st4.state = .Succeeded
       ∧ (mainRun oC3w).st5.state = .Succeeded)) :=
  ((c3_verdict oC3w).2.2.2 rfl).1

/-! ### List utility lemmas -/

theorem get?_modifyAt_self {α : Type} (f : α → α) :
    ∀ (i : ℕ) (r : List α), (modifyAt i f r).get? i = (r.get? i).map f := by
  intro i
  induction i with
  | zero =>
    intro r
    cases r <;> simp [modifyAt]
  | succ n ih =>
    intro r
    cases r with
    | nil => simp [modifyAt]
    | cons x xs => simpa [modifyAt] using ih xs

theorem get?_modifyAt_ne {α : Type} (f : α → α) :
    ∀ (i j : ℕ), i ≠ j → ∀ (r : List α), (modifyAt i f r).get? j = r.get? j := by
  intro i
  induction i with
  | zero =>
    intro j hij r
    cases r with
    | nil => simp [modifyAt]
    | cons x xs =>
      cases j with
      | zero => exact absurd rfl hij
      | succ m => simp [modifyAt]
  | succ n ih =>
    intro j hij r
    cases r with
    | nil => simp [modifyAt]
    | cons x xs =>
      cases j with
      | zero => simp [modifyAt]
      | succ m => simpa [modifyAt] using ih m (by omega) xs

theorem modifyAt_id {α : Type} (f : α → α) :
    ∀ (i : ℕ) (r : List α), (∀ x, r.get? i = some x → f x = x) →
      modifyAt i f r = r := by
  intro i
  induction i with
  | zero =>
    intro r h
    cases r with
    | nil => rfl
    | cons x xs => simp [modifyAt, h x rfl]
  | succ n ih =>
    intro r h
    cases r with
    | nil => rfl
    | cons x xs => simp [modifyAt, ih xs (fun y hy => h y hy)]

theorem modifyAt_nil {α : Type} (i : ℕ) (f : α → α) :
    modifyAt i f ([] : List α) = [] := by
  cases i <;> rfl

theorem modifyAt_comm {α : Type} (f g : α → α) :
    ∀ (i j : ℕ), i ≠ j → ∀ (r : List α),
      modifyAt i f (modifyAt j g r) = modifyAt j g (modifyAt i f r) := by
  intro i
  induction i with
  | zero =>
    intro j hij r
    cases r with
    | nil => simp [modifyAt_nil]
    | cons x xs =>
      cases j with
      | zero => exact absurd rfl hij
      | succ m => simp [modifyAt]
  | succ n ih =>
    intro j hij r
    cases r with
    | nil => simp [modifyAt_nil]
    | cons x xs =>
      cases j with
      | zero => simp [modifyAt]
      | succ m => simp [modifyAt, ih m (by omega) xs]

theorem modifyAt_idem {α : Type} (f : α → α) (hf : ∀ x, f (f x) = f x) :
    ∀ (i : ℕ) (r : List α), modifyAt i f (modifyAt i f r) = modifyAt i f r := by
  intro i
  induction i with
  | zero =>
    intro r
    cases r with
    | nil => rfl
    | cons x xs => simp [modifyAt, hf x]
  | succ n ih =>
    intro r
    cases r with
    | nil => rfl
    | cons x xs => simp [modifyAt, ih xs]

theorem get?_map_own {α β : Type} (f : α → β) :
    ∀ (l : List α) (n : ℕ), (l.map f).get? n = (l.get? n).map f := by
  intro l
  induction l with
  | nil => intro n; simp
  | cons x xs ih =>
    intro n
    cases n with
    | zero => simp
    | succ m => exact ih m

theorem mapE_ok_length {ε α β : Type} (f : α → Except ε β) :
    ∀ (xs : List α) (ys : List β), mapE f xs = .ok ys → ys.length = xs.length := by
  intro xs
  induction xs with
  | nil =>
    intro ys h
    simp only [mapE] at h
    cases h
    rfl
  | cons x xs ih =>
    intro ys h
    simp only [mapE] at h
    cases hx : f x with
    | error e => rw [hx] at h; cases h
    | ok y =>
      rw [hx] at h
      cases hxs : mapE f xs with
      | error e => rw [hxs] at h; cases h
      | ok ys0 =>
        rw [hxs] at h
        cases h
        simp [ih ys0 hxs]

theorem mapE_ok_get? {ε α β : Type} (f : α → Except ε β) :
    ∀ (xs : List α) (ys : List β), mapE f xs = .ok ys →
      ∀ (i : ℕ) (x : α), xs.get? i = some x →
        ∃ y, f x = .ok y ∧ ys.get? i = some y := by
  intro xs
  induction xs with
  | nil =>
    intro ys h i x hx
    simp at hx
  | cons a xs ih =>
    intro ys h i x hx
    simp only [mapE] at h
    cases ha : f a with
    | error e => rw [ha] at h; cases h
    | ok y =>
      rw [ha] at h
      cases hxs : mapE f xs with
      | error e => rw [hxs] at h; cases h
      | ok ys0 =>
        rw [hxs] at h
        cases h
        cases i with
        | zero =>
          cases hx
          exact ⟨y, ha, rfl⟩
        | succ m =>
          exact ih ys0 hxs m x hx

theorem mapE_ok_get?_rev {ε α β : Type} (f : α → Except ε β) :
    ∀ (xs : List α) (ys : List β), mapE f xs = .ok ys →
      ∀ (i : ℕ) (y : β), ys.get? i = some y →
        ∃ x, xs.get? i = some x ∧ f x = .ok y := by
  intro xs
  induction xs with
  | nil =>
    intro ys h i y hy
    simp only [mapE] at h
    cases h
    simp at hy
  | cons a xs ih =>
    intro ys h i y hy
    simp only [mapE] at h
    cases ha : f a with
    | error e => rw [ha] at h; cases h
    | ok y0 =>
      rw [ha] at h
      cases hxs : mapE f xs with
      | error e => rw [hxs] at h; cases h
      | ok ys0 =>
        rw [hxs] at h
        cases h
        cases i with
        | zero =>
          cases hy
          exact ⟨a, rfl, ha⟩
        | succ m =>
          exact ih ys0 hxs m y hy

theorem memB_iff (c : String) : ∀ (l : List String), memB c l = true ↔ c ∈ l := by
  intro l
  induction l with
  | nil => simp [memB]
  | cons x xs ih =>
    simp only [memB]
    by_cases hx : x = c
    · simp [hx]
    · simp [hx, ih, Ne.symm hx]

theorem allPresent_iff : ∀ (cs cols : List String),
    allPresent cs cols = true ↔ ∀ c ∈ cs, c ∈ cols := by
  intro cs
  induction cs with
  | nil => intro cols; simp [allPresent]
  | cons c cs ih =>
    intro cols
    simp only [allPresent]
    by_cases hc : memB c cols = true
    · simp [hc, ih, (memB_iff c cols).mp hc]
    · simp only [hc, Bool.false_eq_true, if_false, false_iff]
      intro hall
      exact hc ((memB_iff c cols).mpr (hall c (by simp)))

theorem colIndex_get : ∀ (cols : List String) (c : String) (i : ℕ),
    colIndex cols c = some i → cols.get? i = some c := by
  intro cols
  induction cols with
  | nil => intro c i h; simp [colIndex] at h
  | cons x xs ih =>
    intro c i h
    simp only [colIndex] at h
    by_cases hx : x = c
    · rw [if_pos hx] at h
      cases h
      simp [hx]
    · rw [if_neg hx] at h
      cases hj : colIndex xs c with
      | none => rw [hj] at h; cases h
      | some j =>
        rw [hj] at h
        cases h
        simpa using ih c j hj

theorem colIndex_isSome_of_mem : ∀ (cols : List String) (c : String),
    c ∈ cols → ∃ i, colIndex cols c = some i := by
  intro cols
  induction cols with
  | nil => intro c h; simp at h
  | cons x xs ih =>
    intro c h
    simp only [colIndex]
    by_cases hx : x = c
    · exact ⟨0, by rw [if_pos hx]⟩
    · have hmem : c ∈ xs := by
        rcases List.mem_cons.mp h with h' | h'
        · exact absurd h'.symm hx
        · exact h'
      obtain ⟨j, hj⟩ := ih c hmem
      exact ⟨j + 1, by rw [if_neg hx, hj]; rfl⟩

theorem colIndex_none_of_not_mem : ∀ (cols : List String) (c : String),
    c ∉ cols → colIndex cols c = none := by
  intro cols
  induction cols with
  | nil => intro c _; rfl
  | cons x xs ih =>
    intro c h
    have hx : x ≠ c := fun he => h (by simp [he])
    have hxs : c ∉ xs := fun hm => h (by simp [hm])
    simp only [colIndex, if_neg hx, ih c hxs]
    rfl

theorem assocLookup_none_iff (c : String) : ∀ (m : List (String × String)),
    assocLookup m c = none ↔ c ∉ m.map Prod.fst := by
  intro m
  induction m with
  | nil => simp [assocLookup]
  | cons kv rest ih =>
    obtain ⟨k, v⟩ := kv
    simp only [assocLookup]
    by_cases hk : k = c
    · simp [hk]
    · simp [hk, ih, Ne.symm hk]

theorem assocLookup_mem (c v : String) : ∀ (m : List (String × String)),
    assocLookup m c = some v → (c, v) ∈ m := by
  intro m
  induction m with
  | nil => intro h; simp [assocLookup] at h
  | cons kv rest ih =>
    obtain ⟨k, w⟩ := kv
    intro h
    simp only [assocLookup] at h
    by_cases hk : k = c
    · rw [if_pos hk] at h
      cases h
      simp [hk]
    · rw [if_neg hk] at h
      exact List.mem_cons_of_mem _ (ih h)

theorem assocLookup_of_mem_nodup (c v : String) : ∀ (m : List (String × String)),
    (m.map Prod.fst).Nodup → (c, v) ∈ m → assocLookup m c = some v := by
  intro m
  induction m with
  | nil => intro _ h; simp at h
  | cons kv rest ih =>
    obtain ⟨k, w⟩ := kv
    intro hnd hmem
    simp only [List.map_cons, List.nodup_cons] at hnd
    simp only [assocLookup]
    rcases List.mem_cons.mp hmem with he | hm
    · cases he
      rw [if_pos rfl]
    · have hk : k ≠ c := by
        intro he
        subst he
        exact hnd.1 (List.mem_map_of_mem Prod.fst hm)
      rw [if_neg hk]
      exact ih hnd.2 hm

theorem mem_catMap {α β : Type} (f : α → List β) (b : β) :
    ∀ (l : List α), b ∈ catMap f l ↔ ∃ a ∈ l, b ∈ f a := by
  intro l
  induction l with
  | nil => simp [catMap]
  | cons x xs ih => simp [catMap, ih]

theorem length_catMap_le {α β : Type} (f : α → List β) :
    ∀ (l : List α), (∀ a ∈ l, (f a).length ≤ 1) →
      (catMap f l).length ≤ l.length := by
  intro l
  induction l with
  | nil => intro _; simp [catMap]
  | cons x xs ih =>
    intro h
    have h1 : (f x).length ≤ 1 := h x (by simp)
    have h2 := ih (fun a ha => h a (by simp [ha]))
    simp only [catMap, List.length_append, List.length_cons]
    omega

theorem filter_eq_nil_of_none {α : Type} (p : α → Bool) :
    ∀ (l : List α), (∀ a ∈ l, p a = false) → l.filter p = [] := by
  intro l
  induction l with
  | nil => intro _; rfl
  | cons x xs ih =>
    intro h
    simp only [List.filter, h x (by simp)]
    exact ih (fun a ha => h a (by simp [ha]))

theorem length_filter_key_le_one {α β : Type} [DecidableEq β] (f : α → β) (v : β) :
    ∀ (l : List α), (l.map f).Nodup →
      (l.filter (fun x => decide (v = f x))).length ≤ 1 := by
  intro l
  induction l with
  | nil => intro _; simp
  | cons x xs ih =>
    intro hnd
    simp only [List.map_cons, List.nodup_cons] at hnd
    by_cases hx : v = f x
    · subst hx
      have hrest : xs.filter (fun y => decide (f x = f y)) = [] := by
        apply filter_eq_nil_of_none
        intro a ha
        simp only [decide_eq_false_iff_not]
        intro he
        exact hnd.1 (he ▸ List.mem_map_of_mem f ha)
      have hd : (decide (f x = f x)) = true := by simp
      simp [List.filter, hd, hrest]
    · have hd : (decide (v = f x)) = false := by simp [hx]
      simp only [List.filter, hd]
      exact ih hnd.2

/-! ### Transform-step lemmas -/

theorem project_ok (retain : List String) (s u : Snapshot)
    (h : project retain s = .ok u) :
    allPresent retain s.cols = true
    ∧ u = ⟨retain, s.rows.map (projRow retain s.cols)⟩ := by
  unfold project at h
  by_cases hc : allPresent retain s.cols = true
  · rw [if_pos hc] at h
    injection h with h2
    exact ⟨hc, h2.symm⟩
  · rw [if_neg hc] at h
    exact Except.noConfusion h

theorem project_error_of_missing (retain : List String) (s : Snapshot)
    (h : ∃ c ∈ retain, c ∉ s.cols) :
    project retain s = .error .SchemaError := by
  unfold project
  have hc : ¬ (allPresent retain s.cols = true) := by
    rw [allPresent_iff]
    push_neg
    exact h
  rw [if_neg hc]

theorem project_ok_of_present (retain : List String) (s : Snapshot)
    (h : ∀ c ∈ retain, c ∈ s.cols) :
    project retain s = .ok ⟨retain, s.rows.map (projRow retain s.cols)⟩ := by
  unfold project
  rw [if_pos ((allPresent_iff retain s.cols).mpr h)]

theorem coerceCol_ok (c : String) (g : Scalar → Option Scalar)
    (s u : Snapshot) (h : coerceCol c g s = .ok u) :
    u.cols = s.cols ∧ mapE (coerceCellAt s.cols c g) s.rows = .ok u.rows := by
  unfold coerceCol at h
  cases hm : mapE (coerceCellAt s.cols c g) s.rows with
  | error e => rw [hm] at h; exact Except.noConfusion h
  | ok rows =>
    rw [hm] at h
    injection h with h2
    subst h2
    exact ⟨rfl, rfl⟩

theorem coerceCellAt_ok (cols : List String) (c : String)
    (g : Scalar → Option Scalar) (r r' : List Scalar)
    (h : coerceCellAt cols c g r = .ok r') :
    ∃ i x y, colIndex cols c = some i ∧ r.get? i = some x ∧ g x = some y
      ∧ r' = modifyAt i (fun _ => y) r := by
  unfold coerceCellAt at h
  cases hi : colIndex cols c with
  | none => rw [hi] at h; exact Except.noConfusion h
  | some i =>
    rw [hi] at h
    replace h : (match r.get? i with
        | none => Except.error EtlErr.SchemaError
        | some x =>
          match g x with
          | none => Except.error EtlErr.SchemaError
          | some y => Except.ok (modifyAt i (fun _ => y) r)) = Except.ok r' := h
    cases hx : r.get? i with
    | none => rw [hx] at h; exact Except.noConfusion h
    | some x =>
      rw [hx] at h
      replace h : (match g x with
          | none => Except.error EtlErr.SchemaError
          | some y => Except.ok (modifyAt i (fun _ => y) r)) = Except.ok r' := h
      cases hy : g x with
      | none => rw [hy] at h; exact Except.noConfusion h
      | some y =>
        rw [hy] at h
        replace h : Except.ok (modifyAt i (fun _ => y) r) = Except.ok r' := h
        injection h with h2
        exact ⟨i, x, y, rfl, hx, hy, h2.symm⟩

theorem coerceCellAt_get? (cols : List String) (c : String)
    (g : Scalar → Option Scalar) (r r' : List Scalar)
    (h : coerceCellAt cols c g r = .ok r') (i : ℕ)
    (hi : colIndex cols c = some i) :
    (∀ j, j ≠ i → r'.get? j = r.get? j)
    ∧ ∃ x y, r.get? i = some x ∧ g x = some y ∧ r'.get? i = some y := by
  obtain ⟨i', x, y, hi', hx, hy, hr⟩ := coerceCellAt_ok cols c g r r' h
  rw [hi] at hi'
  injection hi' with hii
  subst hii
  constructor
  · intro j hj
    rw [hr]
    exact get?_modifyAt_ne _ i j (fun he => hj he.symm) r
  · refine ⟨x, y, hx, hy, ?_⟩
    rw [hr, get?_modifyAt_self, hx]
    rfl

theorem get?_mapColumn (cols : List String) (c : String) (f : Scalar → Scalar)
    (r : List Scalar) (j : ℕ) :
    (mapColumn cols c f r).get? j =
      if colIndex cols c = some j then (r.get? j).map f else r.get? j := by
  unfold mapColumn
  cases hi : colIndex cols c with
  | none => rw [if_neg (by simp)]
  | some i =>
    by_cases hij : i = j
    · subst hij
      rw [if_pos rfl]
      exact get?_modifyAt_self f i r
    · rw [if_neg (by simpa using hij)]
      exact get?_modifyAt_ne f i j hij r

theorem get?_fillRow (cols : List String) (ps : List (String × Scalar)) :
    ∀ (r : List Scalar) (j : ℕ),
      (fillRow cols ps r).get? j = (r.get? j).map (applyFillsAt cols ps j) := by
  induction ps with
  | nil =>
    intro r j
    show r.get? j = (r.get? j).map (fun x => x)
    cases r.get? j <;> rfl
  | cons cv rest ih =>
    intro r j
    have step : fillRow cols (cv :: rest) r
        = fillRow cols rest (mapColumn cols cv.1 (fillCell cv.2) r) := rfl
    have hstep : ∀ x, applyFillsAt cols (cv :: rest) j x
        = applyFillsAt cols rest j
            (if colIndex cols cv.1 = some j then fillCell cv.2 x else x) := by
      intro x
      rfl
    rw [step, ih, get?_mapColumn]
    by_cases hc : colIndex cols cv.1 = some j
    · rw [if_pos hc]
      cases hr : r.get? j with
      | none => rfl
      | some x =>
        show some (applyFillsAt cols rest j (fillCell cv.2 x)) = _
        rw [Option.map_some', hstep x, if_pos hc]
    · rw [if_neg hc]
      cases hr : r.get? j with
      | none => rfl
      | some x =>
        show some (applyFillsAt cols rest j x) = _
        rw [Option.map_some', hstep x, if_neg hc]

theorem fillCell_idem (v x : Scalar) : fillCell v (fillCell v x) = fillCell v x := by
  unfold fillCell
  by_cases hx : x = .Null
  · rw [if_pos hx]
    split <;> rfl
  · rw [if_neg hx, if_neg hx]

theorem fillCell_ne_null (v x : Scalar) (hv : v ≠ .Null) : fillCell v x ≠ .Null := by
  unfold fillCell
  split
  · exact hv
  · assumption

theorem fillCell_of_ne_null (v x : Scalar) (hx : x ≠ .Null) : fillCell v x = x := by
  unfold fillCell
  rw [if_neg hx]

theorem mapColumn_fill_idem (cols : List String) (c : String) (v : Scalar)
    (r : List Scalar) :
    mapColumn cols c (fillCell v) (mapColumn cols c (fillCell v) r)
      = mapColumn cols c (fillCell v) r := by
  unfold mapColumn
  cases hi : colIndex cols c with
  | none => rfl
  | some i => exact modifyAt_idem (fillCell v) (fillCell_idem v) i r

theorem mapColumn_comm (cols : List String) (c c' : String)
    (f g : Scalar → Scalar) (hcc : c ≠ c') (r : List Scalar) :
    mapColumn cols c f (mapColumn cols c' g r)
      = mapColumn cols c' g (mapColumn cols c f r) := by
  unfold mapColumn
  cases hi : colIndex cols c with
  | none => cases hj : colIndex cols c' <;> rfl
  | some i =>
    cases hj : colIndex cols c' with
    | none => rfl
    | some j =>
      have hij : i ≠ j := by
        intro he
        subst he
        have h1 := colIndex_get cols c i hi
        have h2 := colIndex_get cols c' i hj
        rw [h1] at h2
        injection h2 with h3
        exact hcc h3
      exact modifyAt_comm f g i j hij r

theorem fillRow_mapColumn_comm (cols : List String) (c : String)
    (f : Scalar → Scalar) :
    ∀ (rest : List (String × Scalar)), (∀ b ∈ rest, c ≠ b.1) →
      ∀ (y : List Scalar),
        fillRow cols rest (mapColumn cols c f y)
          = mapColumn cols c f (fillRow cols rest y) := by
  intro rest
  induction rest with
  | nil => intro _ y; rfl
  | cons cv rs ih =>
    intro hne y
    have h1 : c ≠ cv.1 := hne cv (by simp)
    show fillRow cols rs (mapColumn cols cv.1 (fillCell cv.2) (mapColumn cols c f y)) = _
    rw [mapColumn_comm cols cv.1 c (fillCell cv.2) f (fun he => h1 he.symm) y]
    exact ih (fun b hb => hne b (by simp [hb])) (mapColumn cols cv.1 (fillCell cv.2) y)

theorem fillRow_idem (cols : List String) :
    ∀ (ps : List (String × Scalar)), ps.Pairwise (fun a b => a.1 ≠ b.1) →
      ∀ (r : List Scalar), fillRow cols ps (fillRow cols ps r) = fillRow cols ps r := by
  intro ps
  induction ps with
  | nil => intro _ r; rfl
  | cons cv rest ih =>
    intro hpw r
    rw [List.pairwise_cons] at hpw
    show fillRow cols rest (mapColumn cols cv.1 (fillCell cv.2)
        (fillRow cols rest (mapColumn cols cv.1 (fillCell cv.2) r))) = _
    rw [← fillRow_mapColumn_comm cols cv.1 (fillCell cv.2) rest hpw.1
        (mapColumn cols cv.1 (fillCell cv.2) r),
      mapColumn_fill_idem cols cv.1 cv.2 r]
    exact ih hpw.2 (mapColumn cols cv.1 (fillCell cv.2) r)

theorem fillRow_id_of_no_null (cols : List String) :
    ∀ (ps : List (String × Scalar)) (r : List Scalar),
      (∀ cv ∈ ps, ∀ i, colIndex cols cv.1 = some i →
        ∀ x, r.get? i = some x → x ≠ .Null) →
      fillRow cols ps r = r := by
  intro ps
  induction ps with
  | nil => intro r _; rfl
  | cons cv rest ih =>
    intro r h
    have hhead : mapColumn cols cv.1 (fillCell cv.2) r = r := by
      unfold mapColumn
      cases hi : colIndex cols cv.1 with
      | none => rfl
      | some i =>
        apply modifyAt_id
        intro x hx
        exact fillCell_of_ne_null cv.2 x (h cv (by simp) i hi x hx)
    show fillRow cols rest (mapColumn cols cv.1 (fillCell cv.2) r) = r
    rw [hhead]
    exact ih r (fun b hb => h b (by simp [hb]))

theorem map_self {α : Type} (f : α → α) :
    ∀ (l : List α), (∀ a ∈ l, f a = a) → l.map f = l := by
  intro l
  induction l with
  | nil => intro _; rfl
  | cons x xs ih =>
    intro h
    simp only [List.map_cons, h x (by simp), ih (fun a ha => h a (by simp [ha]))]

theorem mapE_congr {ε α β : Type} (f g : α → Except ε β)
    (hfg : ∀ x, f x = g x) : ∀ xs, mapE f xs = mapE g xs := by
  intro xs
  induction xs with
  | nil => rfl
  | cons x xs ih => simp only [mapE, hfg x, ih]

theorem mapE_map {ε α β γ : Type} (g : β → Except ε γ) (f : α → β) :
    ∀ xs, mapE g (xs.map f) = mapE (fun x => g (f x)) xs := by
  intro xs
  induction xs with
  | nil => rfl
  | cons x xs ih => simp only [List.map_cons, mapE, ih]

theorem mapE_comp {ε α β γ : Type} (f : α → Except ε β) (g : β → Except ε γ) :
    ∀ (xs : List α) (ys : List β) (zs : List γ),
      mapE f xs = .ok ys → mapE g ys = .ok zs →
      mapE (fun x => Except.bind (f x) g) xs = .ok zs := by
  intro xs
  induction xs with
  | nil =>
    intro ys zs h1 h2
    simp only [mapE] at h1
    injection h1 with h1
    subst h1
    simpa [mapE] using h2
  | cons x xs ih =>
    intro ys zs h1 h2
    simp only [mapE] at h1
    cases hfx : f x with
    | error e => rw [hfx] at h1; exact Except.noConfusion h1
    | ok y =>
      rw [hfx] at h1
      cases hrest : mapE f xs with
      | error e => rw [hrest] at h1; exact Except.noConfusion h1
      | ok ys0 =>
        rw [hrest] at h1
        injection h1 with h1
        subst h1
        simp only [mapE] at h2
        cases hgy : g y with
        | error e => rw [hgy] at h2; exact Except.noConfusion h2
        | ok z =>
          rw [hgy] at h2
          cases hrest2 : mapE g ys0 with
          | error e => rw [hrest2] at h2; exact Except.noConfusion h2
          | ok zs0 =>
            rw [hrest2] at h2
            injection h2 with h2
            subst h2
            have hrec := ih ys0 zs0 hrest hrest2
            have hbind : Except.bind (f x) g = Except.ok z := by
              rw [hfx]
              exact hgy
            simp only [mapE]
            rw [hbind, hrec]

theorem exceptBind_assoc {ε α β γ : Type} (m : Except ε α)
    (f : α → Except ε β) (g : β → Except ε γ) :
    Except.bind (Except.bind m f) g = Except.bind m (fun x => Except.bind (f x) g) := by
  cases m <;> rfl

/-- Inversion of a successful `tf_product` run: the output columns are the
renamed retained columns, and the output rows are the image of the input rows
under the row-level pipeline. -/
theorem tf_product_ok_elim (s t : Snapshot) (h : tf_product s = .ok t) :
    t.cols = prodColsOut
    ∧ allPresent productRetain s.cols = true
    ∧ mapE (rowPipe s.cols) s.rows = .ok t.rows := by
  unfold tf_product at h
  cases hp : project productRetain s with
  | error e => rw [hp] at h; exact Except.noConfusion h
  | ok s1 =>
    rw [hp] at h
    obtain ⟨hall, hs1⟩ := project_ok _ _ _ hp
    subst hs1
    replace h : (do
        let s4 ← coerceCol "ProductSubcategoryKey" toIntScalar
          (renameCols productRename (fillList productFills
            ⟨productRetain, s.rows.map (projRow productRetain s.cols)⟩))
        let s5 ← coerceCol "StandardCost" floatFmt s4
        coerceCol "ListPrice" floatFmt s5) = Except.ok t := h
    cases h4 : coerceCol "ProductSubcategoryKey" toIntScalar
        (renameCols productRename (fillList productFills
          ⟨productRetain, s.rows.map (projRow productRetain s.cols)⟩)) with
    | error e => rw [h4] at h; exact Except.noConfusion h
    | ok s4 =>
      rw [h4] at h
      replace h : (do
          let s5 ← coerceCol "StandardCost" floatFmt s4
          coerceCol "ListPrice" floatFmt s5) = Except.ok t := h
      cases h5 : coerceCol "StandardCost" floatFmt s4 with
      | error e => rw [h5] at h; exact Except.noConfusion h
      | ok s5 =>
        rw [h5] at h
        replace h : coerceCol "ListPrice" floatFmt s5 = Except.ok t := h
        obtain ⟨hc4cols, hm4⟩ := coerceCol_ok _ _ _ _ h4
        obtain ⟨hc5cols, hm5⟩ := coerceCol_ok _ _ _ _ h5
        obtain ⟨hc6cols, hm6⟩ := coerceCol_ok _ _ _ _ h
        have hc4' : s4.cols = prodColsOut := hc4cols
        have hm4' : mapE (coerceCellAt prodColsOut "ProductSubcategoryKey" toIntScalar)
            ((s.rows.map (projRow productRetain s.cols)).map
              (fillRow productRetain productFills)) = .ok s4.rows := hm4
        have hm5' : mapE (coerceCellAt prodColsOut "StandardCost" floatFmt)
            s4.rows = .ok s5.rows := by
          rw [← hc4']
          exact hm5
        have hm6' : mapE (coerceCellAt prodColsOut "ListPrice" floatFmt)
            s5.rows = .ok t.rows := by
          have hc5' : s5.cols = prodColsOut := by rw [hc5cols, hc4']
          rw [← hc5']
          exact hm6
        refine ⟨by rw [hc6cols, hc5cols, hc4'], hall, ?_⟩
        have hcomp1 := mapE_comp _ _ _ _ _ hm4' hm5'
        have hcomp2 := mapE_comp _ _ _ _ _ hcomp1 hm6'
        have hcomp3 : mapE (fun r2 =>
            Except.bind (coerceCellAt prodColsOut "ProductSubcategoryKey" toIntScalar r2)
              (fun r3 => Except.bind (coerceCellAt prodColsOut "StandardCost" floatFmt r3)
                (coerceCellAt prodColsOut "ListPrice" floatFmt)))
            ((s.rows.map (projRow productRetain s.cols)).map
              (fillRow productRetain productFills)) = .ok t.rows := by
          rw [mapE_congr _ _ (fun r2 => (exceptBind_assoc _ _ _).symm)]
          exact hcomp2
        rw [List.map_map] at hcomp3
        rw [mapE_map] at hcomp3
        exact hcomp3

/-! ### Claim C8: projection failure behaviour -/

/-- Claim C8: a snapshot missing a retained column makes the projection, and
with it the whole transform, fail with a SchemaError, and projection never
fails when every retained column is present. -/
theorem c8_projection_schema (retain : List String) (s : Snapshot) :
    ((∃ c ∈ retain, c ∉ s.cols) → project retain s = .error .SchemaError)
    ∧ ((∀ c ∈ retain, c ∈ s.cols) →
        ∃ t, project retain s = .ok t ∧ t.cols = retain)
    ∧ ((∃ c ∈ productRetain, c ∉ s.cols) → tf_product s = .error .SchemaError) := by
  refine ⟨?_, ?_, ?_⟩
  · intro h
    exact project_error_of_missing retain s h
  · intro h
    exact ⟨_, project_ok_of_present retain s h, rfl⟩
  · intro h
    have hp := project_error_of_missing productRetain s h
    unfold tf_product
    rw [hp]
    rfl

theorem c8_projection_schema_witness :
    project productRetain sC8 = .error .SchemaError
    ∧ tf_product sC8 = .error .SchemaError
    ∧ ∃ t, project categoryRetain sCat = .ok t ∧ t.cols = categoryRetain := by
  refine ⟨(c8_projection_schema productRetain sC8).1 (by decide),
    (c8_projection_schema productRetain sC8).2.2 (by decide),
    (c8_projection_schema categoryRetain sCat).2.1 (by decide)⟩

/-! ### Claim C7: null-fill idempotence -/

/-- Claim C7: the null-fill block is idempotent — filling twice equals filling
once — and filling a snapshot with no nulls in the fill columns is a no-op. -/
theorem c7_fill_idempotent :
    (∀ s : Snapshot,
      fillList productFills (fillList productFills s) = fillList productFills s)
    ∧ (∀ s : Snapshot,
        (∀ cv ∈ productFills, ∀ r ∈ s.rows, cellAt s.cols r cv.1 ≠ .Null) →
        fillList productFills s = s) := by
  have hpw : productFills.Pairwise (fun a b => a.1 ≠ b.1) := by decide
  constructor
  · intro s
    show Snapshot.mk s.cols ((s.rows.map (fillRow s.cols productFills)).map
        (fillRow s.cols productFills)) = Snapshot.mk s.cols (s.rows.map (fillRow s.cols productFills))
    apply congrArg (Snapshot.mk s.cols)
    apply map_self
    intro a ha
    obtain ⟨r, _, rfl⟩ := List.mem_map.mp ha
    exact fillRow_idem s.cols productFills hpw r
  · intro s h
    obtain ⟨cols, rows⟩ := s
    show Snapshot.mk cols (rows.map (fillRow cols productFills)) = Snapshot.mk cols rows
    apply congrArg (Snapshot.mk cols)
    apply map_self
    intro r hr
    apply fillRow_id_of_no_null
    intro cv hcv i hi x hx hnull
    subst hnull
    have hc := h cv hcv r hr
    unfold cellAt at hc
    rw [hi] at hc
    replace hc : (r.get? i).getD .Null ≠ .Null := hc
    rw [hx] at hc
    exact hc rfl

theorem c7_fill_idempotent_witness :
    fillList productFills (fillList productFills sC7) = fillList productFills sC7
    ∧ fillList productFills sC7b = sC7b :=
  ⟨c7_fill_idempotent.1 sC7, c7_fill_idempotent.2 sC7b (by decide)⟩

/-! ### Claim C5: column set after projection and rename -/

theorem renamed_cols_mem (retain : List String) (m : List (String × String))
    (hnd : (m.map Prod.fst).Nodup) (hsub : ∀ k ∈ m.map Prod.fst, k ∈ retain) :
    ∀ x, x ∈ retain.map (applyRename m) ↔
      (x ∈ m.map Prod.snd ∨ (x ∈ retain ∧ x ∉ m.map Prod.fst)) := by
  intro x
  constructor
  · intro hx
    obtain ⟨c, hc, hcx⟩ := List.mem_map.mp hx
    unfold applyRename at hcx
    cases hl : assocLookup m c with
    | none =>
      rw [hl] at hcx
      refine Or.inr ⟨?_, ?_⟩
      · rw [← hcx]; exact hc
      · rw [← hcx]; exact (assocLookup_none_iff c m).mp hl
    | some v =>
      rw [hl] at hcx
      refine Or.inl ?_
      rw [← hcx]
      exact List.mem_map.mpr ⟨(c, v), assocLookup_mem c v m hl, rfl⟩
  · intro hx
    rcases hx with hv | ⟨hr, hk⟩
    · obtain ⟨⟨k, v⟩, hkv, hvx⟩ := List.mem_map.mp hv
      have hkret : k ∈ retain := hsub k (List.mem_map_of_mem Prod.fst hkv)
      refine List.mem_map.mpr ⟨k, hkret, ?_⟩
      unfold applyRename
      rw [assocLookup_of_mem_nodup k v m hnd hkv]
      exact hvx
    · have hl : assocLookup m x = none := (assocLookup_none_iff x m).mpr hk
      refine List.mem_map.mpr ⟨x, hr, ?_⟩
      unfold applyRename
      rw [hl]
      rfl

/-- Claim C5: for every valid rule (rename keys distinct and contained in the
retained columns) and every snapshot containing all retained columns,
projection then rename yields a snapshot whose column set is exactly
`rename.values ∪ (retain − rename.keys)`; the product transform, whose steps
run in the fixed source order, realises exactly this column set on success. -/
theorem c5_column_sets :
    (∀ (retain : List String) (m : List (String × String)) (s : Snapshot),
      (m.map Prod.fst).Nodup → (∀ k ∈ m.map Prod.fst, k ∈ retain) →
      (∀ c ∈ retain, c ∈ s.cols) →
      ∃ u, project retain s = .ok u ∧
        ∀ x, x ∈ (renameCols m u).cols ↔
          (x ∈ m.map Prod.snd ∨ (x ∈ retain ∧ x ∉ m.map Prod.fst)))
    ∧ (∀ s t : Snapshot, tf_product s = .ok t →
        ∀ x, x ∈ t.cols ↔
          (x ∈ productRename.map Prod.snd
           ∨ (x ∈ productRetain ∧ x ∉ productRename.map Prod.fst))) := by
  constructor
  · intro retain m s hnd hsub hall
    refine ⟨_, project_ok_of_present retain s hall, ?_⟩
    intro x
    exact renamed_cols_mem retain m hnd hsub x
  · intro s t h x
    obtain ⟨hcols, _, _⟩ := tf_product_ok_elim s t h
    rw [hcols]
    exact renamed_cols_mem productRetain productRename (by decide) (by decide) x

theorem c5_column_sets_witness :
    ("ProductCategoryName" ∈ (renameCols categoryRename uCat).cols ↔
      ("ProductCategoryName" ∈ categoryRename.map Prod.snd
       ∨ ("ProductCategoryName" ∈ categoryRetain
          ∧ "ProductCategoryName" ∉ categoryRename.map Prod.fst)))
    ∧ ("StandardCost" ∈ tProd.cols ↔
      ("StandardCost" ∈ productRename.map Prod.snd
       ∨ ("StandardCost" ∈ productRetain
          ∧ "StandardCost" ∉ productRename.map Prod.fst))) := by
  constructor
  · obtain ⟨u, hu, hiff⟩ := c5_column_sets.1 categoryRetain categoryRename sCat
      (by decide) (by decide) (by decide)
    have huC : uCat = u := by
      unfold uCat
      rw [hu]
    rw [huC]
    exact hiff "ProductCategoryName"
  · exact c5_column_sets.2 sProd tProd rfl "StandardCost"

/-! ### Claim C10: the transform phase is a frame over the table list -/

theorem transformPair_ok_snd (p q : Snapshot × String)
    (h : transformPair p = .ok q) : q.2 = p.2 := by
  unfold transformPair at h
  cases hs : transformStep p.2 p.1 with
  | error e => rw [hs] at h; exact Except.noConfusion h
  | ok df =>
    rw [hs] at h
    replace h : Except.ok (df, p.2) = Except.ok q := h
    injection h with h2
    rw [← h2]

theorem transformStep_pass (df : Snapshot) (name : String)
    (h1 : name ≠ "DimProduct") (h2 : name ≠ "DimProductCategory")
    (h3 : name ≠ "DimProductSubcategory") :
    transformStep name df = .ok df := by
  unfold transformStep
  rw [if_neg h1]
  show (match (if name = "DimProductCategory" then tf_product_category df
        else Except.ok df) with
    | Except.error e => Except.error e
    | Except.ok dfB =>
      if name = "DimProductSubcategory" then tf_product_subcategory dfB
      else Except.ok dfB) = Except.ok df
  rw [if_neg h2]
  show (if name = "DimProductSubcategory" then tf_product_subcategory df
    else Except.ok df) = Except.ok df
  rw [if_neg h3]

theorem transformPair_pass (df : Snapshot) (name : String)
    (h1 : name ≠ "DimProduct") (h2 : name ≠ "DimProductCategory")
    (h3 : name ≠ "DimProductSubcategory") :
    transformPair (df, name) = .ok (df, name) := by
  unfold transformPair
  rw [transformStep_pass df name h1 h2 h3]

/-- Claim C10: a successful transform phase preserves the length of the table
list, the table names and their order, and passes through unchanged every
snapshot whose name is none of the three dimension tables. -/
theorem c10_transform_frame (ts us : List (Snapshot × String))
    (h : transform ts = .ok us) :
    us.length = ts.length
    ∧ (∀ i, (us.get? i).map Prod.snd = (ts.get? i).map Prod.snd)
    ∧ (∀ i p, ts.get? i = some p →
        p.2 ≠ "DimProduct" → p.2 ≠ "DimProductCategory" →
        p.2 ≠ "DimProductSubcategory" → us.get? i = some p) := by
  refine ⟨mapE_ok_length _ _ _ h, ?_, ?_⟩
  · intro i
    cases hti : ts.get? i with
    | none =>
      have hlen : ts.length ≤ i := List.get?_eq_none.mp hti
      have : us.get? i = none := List.get?_eq_none.mpr (by rw [mapE_ok_length _ _ _ h]; exact hlen)
      rw [this]
    | some p =>
      obtain ⟨q, hq, hui⟩ := mapE_ok_get? _ _ _ h i p hti
      rw [hui]
      simp [transformPair_ok_snd p q hq]
  · intro i p hti h1 h2 h3
    obtain ⟨q, hq, hui⟩ := mapE_ok_get? _ _ _ h i p hti
    have hpass : transformPair (p.1, p.2) = .ok (p.1, p.2) :=
      transformPair_pass p.1 p.2 h1 h2 h3
    rw [show ((p.1, p.2) : Snapshot × String) = p from rfl] at hpass
    rw [hq] at hpass
    injection hpass with h4
    rw [hui, h4]

theorem c10_transform_frame_witness :
    usW.length = tsW.length
    ∧ (usW.get? 0).map Prod.snd = (tsW.get? 0).map Prod.snd
    ∧ usW.get? 1 = some (sOther, "Other") := by
  refine ⟨(c10_transform_frame tsW usW rfl).1,
    (c10_transform_frame tsW usW rfl).2.1 0,
    (c10_transform_frame tsW usW rfl).2.2 1 (sOther, "Other") rfl
      (by decide) (by decide) (by decide)⟩

/-! ### Claim C4: merge correspondence and row-count bound -/

theorem joinOn_ok_elim (a b : Snapshot) (k : String) (m : Snapshot)
    (h : joinOn a b k = .ok m) :
    ∃ j, colIndex b.cols k = some j
      ∧ m.cols = a.cols ++ dropAt j b.cols
      ∧ m.rows = catMap (fun ra =>
          ((b.rows.filter (fun rb =>
              decide (cellAt a.cols ra k = cellAt b.cols rb k))).map
            (fun rb => ra ++ dropAt j rb))) a.rows := by
  unfold joinOn at h
  cases hi : colIndex a.cols k with
  | none => rw [hi] at h; exact Except.noConfusion h
  | some i =>
    rw [hi] at h
    cases hj : colIndex b.cols k with
    | none => rw [hj] at h; exact Except.noConfusion h
    | some j =>
      rw [hj] at h
      replace h : Except.ok (Snapshot.mk (a.cols ++ dropAt j b.cols)
          (catMap (fun ra =>
            ((b.rows.filter (fun rb =>
                decide (cellAt a.cols ra k = cellAt b.cols rb k))).map
              (fun rb => ra ++ dropAt j rb))) a.rows)) = Except.ok m := h
      injection h with h2
      exact ⟨j, rfl, by rw [← h2], by rw [← h2]⟩

theorem joinOn_row_mem (a b : Snapshot) (k : String) (m : Snapshot)
    (h : joinOn a b k = .ok m) (rw0 : List Scalar) (hrw : rw0 ∈ m.rows) :
    ∃ j ra rb, colIndex b.cols k = some j
      ∧ ra ∈ a.rows ∧ rb ∈ b.rows
      ∧ cellAt a.cols ra k = cellAt b.cols rb k
      ∧ rw0 = ra ++ dropAt j rb := by
  obtain ⟨j, hj, _, hrows⟩ := joinOn_ok_elim a b k m h
  rw [hrows] at hrw
  obtain ⟨ra, hra, hmem⟩ := (mem_catMap _ rw0 a.rows).mp hrw
  obtain ⟨rb, hrb, hrbe⟩ := List.mem_map.mp hmem
  obtain ⟨hrbmem, hkey⟩ := List.mem_filter.mp hrb
  exact ⟨j, ra, rb, hj, hra, hrbmem, of_decide_eq_true hkey, hrbe.symm⟩

theorem joinOn_count (a b : Snapshot) (k : String) (m : Snapshot)
    (h : joinOn a b k = .ok m)
    (hnd : (b.rows.map (fun rb => cellAt b.cols rb k)).Nodup) :
    m.rows.length ≤ a.rows.length := by
  obtain ⟨j, _, _, hrows⟩ := joinOn_ok_elim a b k m h
  rw [hrows]
  apply length_catMap_le
  intro ra _
  rw [List.length_map]
  exact length_filter_key_le_one (fun rb => cellAt b.cols rb k)
    (cellAt a.cols ra k) b.rows hnd

/-- Claim C4 (counterexample): with two subcategory rows sharing the same
ProductSubcategoryKey, the merge of a one-row product table has two rows, so
`|merged| ≤ |product|` fails as a statement about all snapshots. -/
theorem c4_merge_cex :
    Except.map (fun m => m.rows.length) (merge_tables pC4 psC4 pcC4) = .ok 2
    ∧ pC4.rows.length = 1
    ∧ ¬ ((2 : ℕ) ≤ 1) := by
  refine ⟨rfl, rfl, by decide⟩

/-- Claim C4 (amended): every merged row is built from a product row, a
matching subcategory row (on ProductSubcategoryKey) and a matching category
row (on ProductCategoryKey of the intermediate row); a product row with no
subcategory match contributes no merged row; and when the join keys are unique
in subcategory and category — as they are for dimension primary keys — the
merged row count is at most the product row count (pandas duplicates rows on
duplicate keys, so the bound needs that hypothesis). -/
theorem c4_merge (p ps pc m : Snapshot) (h : merge_tables p ps pc = .ok m) :
    (∀ rw0 ∈ m.rows, ∃ j j2 r1 r2 r3,
        colIndex ps.cols "ProductSubcategoryKey" = some j
        ∧ colIndex pc.cols "ProductCategoryKey" = some j2
        ∧ r1 ∈ p.rows ∧ r2 ∈ ps.rows ∧ r3 ∈ pc.rows
        ∧ cellAt p.cols r1 "ProductSubcategoryKey"
            = cellAt ps.cols r2 "ProductSubcategoryKey"
        ∧ cellAt (p.cols ++ dropAt j ps.cols) (r1 ++ dropAt j r2) "ProductCategoryKey"
            = cellAt pc.cols r3 "ProductCategoryKey"
        ∧ rw0 = (r1 ++ dropAt j r2) ++ dropAt j2 r3)
    ∧ ((∀ r ∈ p.rows, r.length = p.cols.length) →
        ∀ r1 ∈ p.rows,
          (∀ r2 ∈ ps.rows, cellAt p.cols r1 "ProductSubcategoryKey"
            ≠ cellAt ps.cols r2 "ProductSubcategoryKey") →
          ∀ rw0 ∈ m.rows, ∀ rest, rw0 ≠ r1 ++ rest)
    ∧ ((ps.rows.map (fun r => cellAt ps.cols r "ProductSubcategoryKey")).Nodup →
       (pc.rows.map (fun r => cellAt pc.cols r "ProductCategoryKey")).Nodup →
        m.rows.length ≤ p.rows.length) := by
  unfold merge_tables at h
  cases hm1 : joinOn p ps "ProductSubcategoryKey" with
  | error e => rw [hm1] at h; exact Except.noConfusion h
  | ok m1 =>
    rw [hm1] at h
    replace h : joinOn m1 pc "ProductCategoryKey" = .ok m := h
    obtain ⟨j, hjps, hm1cols, _⟩ := joinOn_ok_elim p ps "ProductSubcategoryKey" m1 hm1
    have hcorr : ∀ rw0 ∈ m.rows, ∃ j2 r1 r2 r3,
        colIndex pc.cols "ProductCategoryKey" = some j2
        ∧ r1 ∈ p.rows ∧ r2 ∈ ps.rows ∧ r3 ∈ pc.rows
        ∧ cellAt p.cols r1 "ProductSubcategoryKey"
            = cellAt ps.cols r2 "ProductSubcategoryKey"
        ∧ cellAt (p.cols ++ dropAt j ps.cols) (r1 ++ dropAt j r2) "ProductCategoryKey"
            = cellAt pc.cols r3 "ProductCategoryKey"
        ∧ rw0 = (r1 ++ dropAt j r2) ++ dropAt j2 r3 := by
      intro rw0 hrw
      obtain ⟨j2, ra, r3, hjpc, hram, hr3m, hkey2, hrweq⟩ :=
        joinOn_row_mem m1 pc "ProductCategoryKey" m h rw0 hrw
      obtain ⟨j', r1, r2, hj', hr1m, hr2m, hkey1, hraeq⟩ :=
        joinOn_row_mem p ps "ProductSubcategoryKey" m1 hm1 ra hram
      rw [hjps] at hj'
      injection hj' with hjj
      subst hjj
      refine ⟨j2, r1, r2, r3, hjpc, hr1m, hr2m, hr3m, hkey1, ?_, ?_⟩
      · rw [← hm1cols, ← hraeq]
        exact hkey2
      · rw [hrweq, hraeq]
    refine ⟨fun rw0 hrw => by
        obtain ⟨j2, r1, r2, r3, h1, h2, h3, h4, h5, h6, h7⟩ := hcorr rw0 hrw
        exact ⟨j, j2, r1, r2, r3, hjps, h1, h2, h3, h4, h5, h6, h7⟩,
      ?_, ?_⟩
    · intro hwf r1 hr1 hno rw0 hrw rest heq
      obtain ⟨j2, r1', r2, r3, _, hr1'm, hr2m, _, hkey1, _, hrweq⟩ := hcorr rw0 hrw
      rw [heq] at hrweq
      rw [List.append_assoc] at hrweq
      have hlen : r1.length = r1'.length := by
        rw [hwf r1 hr1, hwf r1' hr1'm]
      obtain ⟨he1, _⟩ := List.append_inj hrweq hlen
      subst he1
      exact hno r2 hr2m hkey1
    · intro hndps hndpc
      calc m.rows.length ≤ m1.rows.length :=
            joinOn_count m1 pc "ProductCategoryKey" m h hndpc
        _ ≤ p.rows.length :=
            joinOn_count p ps "ProductSubcategoryKey" m1 hm1 hndps

theorem c4_merge_witness : mW.rows.length ≤ pW.rows.length :=
  (c4_merge pW psW pcW mW rfl).2.2 (by decide) (by decide)

/-! ### Digit and fixed-point format lemmas -/

theorem digCh_ne_dot (n : ℕ) : digCh n ≠ '.' := by
  unfold digCh
  have h : n % 10 < 10 := Nat.mod_lt _ (by omega)
  set k := n % 10 with hk
  interval_cases k <;> decide

theorem dot_not_mem_natDigsAux : ∀ (fuel n : ℕ), '.' ∉ natDigsAux fuel n := by
  intro fuel
  induction fuel with
  | zero => intro n; simp [natDigsAux]
  | succ m ih =>
    intro n
    rw [natDigsAux]
    by_cases hn : n < 10
    · rw [if_pos hn]
      intro hmem
      simp only [List.mem_singleton] at hmem
      exact digCh_ne_dot n hmem.symm
    · rw [if_neg hn]
      intro hmem
      rcases List.mem_append.mp hmem with h1 | h2
      · exact ih (n / 10) h1
      · simp only [List.mem_singleton] at h2
        exact digCh_ne_dot n h2.symm

theorem afterLastDot_eq_none : ∀ (l : List Char), '.' ∉ l → afterLastDot l = none := by
  intro l
  induction l with
  | nil => intro _; rfl
  | cons c cs ih =>
    intro h
    have hc : c ≠ '.' := fun he => h (by simp [he])
    have hcs : '.' ∉ cs := fun hm => h (by simp [hm])
    simp only [afterLastDot, ih hcs]
    rw [if_neg hc]

theorem afterLastDot_append (suf : List Char) (hsuf : '.' ∉ suf) :
    ∀ (pre : List Char), afterLastDot (pre ++ '.' :: suf) = some suf := by
  intro pre
  induction pre with
  | nil =>
    show afterLastDot ('.' :: suf) = some suf
    simp only [afterLastDot, afterLastDot_eq_none suf hsuf]
    simp
  | cons c cs ih =>
    show afterLastDot (c :: (cs ++ '.' :: suf)) = some suf
    simp only [afterLastDot, ih]

/-- Every value of the fixed-point formatter carries exactly two digit
characters after its last dot. -/
theorem formatFixed2_two_decimals (q : ℚ) :
    ∃ a b : ℕ, afterLastDot (formatFixed2 q).data
      = some [digCh a, digCh b] := by
  refine ⟨(centsOf q).natAbs / 10, (centsOf q).natAbs, ?_⟩
  show afterLastDot (((if centsOf q < 0 then ['-'] else [])
      ++ natDigs ((centsOf q).natAbs / 100) ++ ['.'])
      ++ [digCh ((centsOf q).natAbs / 10), digCh (centsOf q).natAbs]) = _
  have hsuf : '.' ∉ [digCh ((centsOf q).natAbs / 10), digCh (centsOf q).natAbs] := by
    intro hmem
    rcases List.mem_cons.mp hmem with h1 | h2
    · exact digCh_ne_dot _ h1.symm
    · simp only [List.mem_singleton] at h2
      exact digCh_ne_dot _ h2.symm
  rw [show ((if centsOf q < 0 then ['-'] else [])
      ++ natDigs ((centsOf q).natAbs / 100) ++ ['.'])
      ++ [digCh ((centsOf q).natAbs / 10), digCh (centsOf q).natAbs]
      = ((if centsOf q < 0 then ['-'] else [])
        ++ natDigs ((centsOf q).natAbs / 100))
        ++ ('.' :: [digCh ((centsOf q).natAbs / 10), digCh (centsOf q).natAbs]) by
    simp [List.append_assoc]]
  exact afterLastDot_append _ hsuf _

/-- `astype(int)` success produces an integer cell. -/
theorem toIntScalar_shape (x y : Scalar) (h : toIntScalar x = some y) :
    ∃ n : ℤ, y = .I n := by
  cases x with
  | Null => exact Option.noConfusion h
  | I n => injection h with h2; exact ⟨n, h2.symm⟩
  | F q => injection h with h2; exact ⟨truncQ q, h2.symm⟩
  | Str s =>
    replace h : Option.map Scalar.I (parseIntStr s) = some y := h
    cases hp : parseIntStr s with
    | none => rw [hp] at h; exact Option.noConfusion h
    | some n =>
      rw [hp] at h
      injection h with h2
      exact ⟨n, h2.symm⟩

/-- The currency coercion success produces a fixed-point formatted string. -/
theorem floatFmt_shape (x y : Scalar) (h : floatFmt x = some y) :
    ∃ q : ℚ, y = .Str (formatFixed2 q) := by
  unfold floatFmt at h
  cases hp : toFloatQ x with
  | none => rw [hp] at h; exact Option.noConfusion h
  | some q =>
    rw [hp] at h
    injection h with h2
    exact ⟨q, h2.symm⟩

/-! ### Row-level tracing through `tf_product` -/

theorem rowPipe_ok_elim (cols : List String) (r r6 : List Scalar)
    (h : rowPipe cols r = .ok r6) :
    ∃ r3 r4, coerceCellAt prodColsOut "ProductSubcategoryKey" toIntScalar
        (fillRow productRetain productFills (projRow productRetain cols r)) = .ok r3
      ∧ coerceCellAt prodColsOut "StandardCost" floatFmt r3 = .ok r4
      ∧ coerceCellAt prodColsOut "ListPrice" floatFmt r4 = .ok r6 := by
  unfold rowPipe at h
  replace h : (do
      let r3 ← coerceCellAt prodColsOut "ProductSubcategoryKey" toIntScalar
        (fillRow productRetain productFills (projRow productRetain cols r))
      let r4 ← coerceCellAt prodColsOut "StandardCost" floatFmt r3
      coerceCellAt prodColsOut "ListPrice" floatFmt r4) = Except.ok r6 := h
  cases h3 : coerceCellAt prodColsOut "ProductSubcategoryKey" toIntScalar
      (fillRow productRetain productFills (projRow productRetain cols r)) with
  | error e => rw [h3] at h; exact Except.noConfusion h
  | ok r3 =>
    rw [h3] at h
    replace h : (do
        let r4 ← coerceCellAt prodColsOut "StandardCost" floatFmt r3
        coerceCellAt prodColsOut "ListPrice" floatFmt r4) = Except.ok r6 := h
    cases h4 : coerceCellAt prodColsOut "StandardCost" floatFmt r3 with
    | error e => rw [h4] at h; exact Except.noConfusion h
    | ok r4 =>
      rw [h4] at h
      replace h : coerceCellAt prodColsOut "ListPrice" floatFmt r4 = Except.ok r6 := h
      exact ⟨r3, r4, h3.symm ▸ rfl, h4, h⟩

/-- Value of one cell right after projection and the fill block, for a column
whose retained position and accumulated fill are given. -/
theorem fill_stage_cell (cols : List String) (r : List Scalar) (j : ℕ)
    (cname : String) (v : Scalar)
    (hget : productRetain.get? j = some cname)
    (happ : ∀ x, applyFillsAt productRetain productFills j x = fillCell v x) :
    (fillRow productRetain productFills (projRow productRetain cols r)).get? j
      = some (fillCell v (cellAt cols r cname)) := by
  rw [get?_fillRow]
  have hproj : (projRow productRetain cols r).get? j = some (cellAt cols r cname) := by
    unfold projRow
    rw [get?_map_own, hget]
    rfl
  rw [hproj, Option.map_some', happ]

/-- Value of one untouched cell right after projection and the fill block. -/
theorem fill_stage_cell_id (cols : List String) (r : List Scalar) (j : ℕ)
    (cname : String)
    (hget : productRetain.get? j = some cname)
    (happ : ∀ x, applyFillsAt productRetain productFills j x = x) :
    (fillRow productRetain productFills (projRow productRetain cols r)).get? j
      = some (cellAt cols r cname) := by
  rw [get?_fillRow]
  have hproj : (projRow productRetain cols r).get? j = some (cellAt cols r cname) := by
    unfold projRow
    rw [get?_map_own, hget]
    rfl
  rw [hproj, Option.map_some', happ]

/-- The three coercions leave all positions other than 2, 6 and 11 unchanged. -/
theorem rowPipe_frame (cols : List String) (r r6 : List Scalar)
    (h : rowPipe cols r = .ok r6) (j : ℕ)
    (hj2 : j ≠ 2) (hj6 : j ≠ 6) (hj11 : j ≠ 11) :
    r6.get? j = (fillRow productRetain productFills (projRow productRetain cols r)).get? j := by
  obtain ⟨r3, r4, h3, h4, h5⟩ := rowPipe_ok_elim cols r r6 h
  have f3 := (coerceCellAt_get? _ _ _ _ _ h3 2 rfl).1 j hj2
  have f4 := (coerceCellAt_get? _ _ _ _ _ h4 6 rfl).1 j hj6
  have f5 := (coerceCellAt_get? _ _ _ _ _ h5 11 rfl).1 j hj11
  rw [f5, f4, f3]

/-- Shapes of the three coerced cells after a successful row pipeline. -/
theorem rowPipe_coerced_cells (cols : List String) (r r6 : List Scalar)
    (h : rowPipe cols r = .ok r6) :
    (∃ x y, (fillRow productRetain productFills (projRow productRetain cols r)).get? 2
        = some x ∧ toIntScalar x = some y ∧ r6.get? 2 = some y)
    ∧ (∃ x y, (fillRow productRetain productFills (projRow productRetain cols r)).get? 6
        = some x ∧ floatFmt x = some y ∧ r6.get? 6 = some y)
    ∧ (∃ x y, (fillRow productRetain productFills (projRow productRetain cols r)).get? 11
        = some x ∧ floatFmt x = some y ∧ r6.get? 11 = some y) := by
  obtain ⟨r3, r4, h3, h4, h5⟩ := rowPipe_ok_elim cols r r6 h
  have f3 := coerceCellAt_get? _ _ _ _ _ h3 2 rfl
  have f4 := coerceCellAt_get? _ _ _ _ _ h4 6 rfl
  have f5 := coerceCellAt_get? _ _ _ _ _ h5 11 rfl
  refine ⟨?_, ?_, ?_⟩
  · obtain ⟨x, y, hx, hy, hr3⟩ := f3.2
    refine ⟨x, y, hx, hy, ?_⟩
    rw [f5.1 2 (by omega), f4.1 2 (by omega), hr3]
  · obtain ⟨x, y, hx, hy, hr4⟩ := f4.2
    refine ⟨x, y, ?_, hy, ?_⟩
    · rw [← f3.1 6 (by omega)]
      exact hx
    · rw [f5.1 6 (by omega), hr4]
  · obtain ⟨x, y, hx, hy, hr5⟩ := f5.2
    refine ⟨x, y, ?_, hy, hr5⟩
    rw [← f3.1 11 (by omega), ← f4.1 11 (by omega)]
    exact hx

/-! ### Claim C6: null currency cells become "0.00" -/

/-- Claim C6: in a successful DimProduct transform, a row whose StandardCost
cell is null ends with the string cell "0.00" there — the fill step writes the
string "0" and the fixed-point coercion formats it with two decimals — and the
same holds for ListPrice. -/
theorem c6_null_fill_currency (s t : Snapshot) (h : tf_product s = .ok t)
    (i : ℕ) (r : List Scalar) (hr : s.rows.get? i = some r) :
    (cellAt s.cols r "StandardCost" = .Null →
      ∃ r', t.rows.get? i = some r'
        ∧ cellAt t.cols r' "StandardCost" = .Str "0.00")
    ∧ (cellAt s.cols r "ListPrice" = .Null →
      ∃ r', t.rows.get? i = some r'
        ∧ cellAt t.cols r' "ListPrice" = .Str "0.00") := by
  obtain ⟨hcols, _, hmap⟩ := tf_product_ok_elim s t h
  obtain ⟨r6, hpipe, hti⟩ := mapE_ok_get? _ _ _ hmap i r hr
  obtain ⟨hc2, hc6, hc11⟩ := rowPipe_coerced_cells s.cols r r6 hpipe
  constructor
  · intro hnull
    refine ⟨r6, hti, ?_⟩
    obtain ⟨x, y, hx, hy, hr6⟩ := hc6
    have hfill : (fillRow productRetain productFills
        (projRow productRetain s.cols r)).get? 6
        = some (fillCell (.Str "0") (cellAt s.cols r "StandardCost")) :=
      fill_stage_cell s.cols r 6 "StandardCost" (.Str "0") rfl (fun _ => rfl)
    rw [hfill] at hx
    injection hx with hx2
    rw [hnull] at hx2
    have hxv : x = .Str "0" := by rw [← hx2]; rfl
    rw [hxv] at hy
    have h0 : floatFmt (.Str "0") = some (.Str "0.00") := rfl
    rw [h0] at hy
    injection hy with hy2
    rw [hcols]
    show (r6.get? 6).getD .Null = .Str "0.00"
    rw [hr6, ← hy2]
    rfl
  · intro hnull
    refine ⟨r6, hti, ?_⟩
    obtain ⟨x, y, hx, hy, hr11⟩ := hc11
    have hfill : (fillRow productRetain productFills
        (projRow productRetain s.cols r)).get? 11
        = some (fillCell (.Str "0") (cellAt s.cols r "ListPrice")) :=
      fill_stage_cell s.cols r 11 "ListPrice" (.Str "0") rfl (fun _ => rfl)
    rw [hfill] at hx
    injection hx with hx2
    rw [hnull] at hx2
    have hxv : x = .Str "0" := by rw [← hx2]; rfl
    rw [hxv] at hy
    have h0 : floatFmt (.Str "0") = some (.Str "0.00") := rfl
    rw [h0] at hy
    injection hy with hy2
    rw [hcols]
    show (r6.get? 11).getD .Null = .Str "0.00"
    rw [hr11, ← hy2]
    rfl

theorem c6_null_fill_currency_witness :
    tProd.rows.get? 0 = some tRow0
    ∧ cellAt tProd.cols tRow0 "StandardCost" = .Str "0.00"
    ∧ cellAt tProd.cols tRow0 "ListPrice" = .Str "0.00" := by
  obtain ⟨rA, hrA, hcellA⟩ :=
    (c6_null_fill_currency sProd tProd rfl 0 rProd rfl).1 (by decide)
  obtain ⟨rB, hrB, hcellB⟩ :=
    (c6_null_fill_currency sProd tProd rfl 0 rProd rfl).2 (by decide)
  have h1 : tRow0 = rA := by unfold tRow0; rw [hrA]
  have h2 : tRow0 = rB := by unfold tRow0; rw [hrB]
  exact ⟨by rw [h1]; exact hrA, by rw [h1]; exact hcellA, by rw [h2]; exact hcellB⟩

/-! ### Claim C9: invariants of the transformed DimProduct snapshot -/

/-- A filled, uncoerced column of a successful row pipeline is not null. -/
theorem cell_not_null_of_fill (s t : Snapshot) (r r' : List Scalar)
    (hcols : t.cols = prodColsOut) (hpipe : rowPipe s.cols r = .ok r')
    (j : ℕ) (cnameOut cnameIn : String) (v : Scalar)
    (hj2 : j ≠ 2) (hj6 : j ≠ 6) (hj11 : j ≠ 11)
    (hci : colIndex prodColsOut cnameOut = some j)
    (hget : productRetain.get? j = some cnameIn)
    (happ : ∀ x, applyFillsAt productRetain productFills j x = fillCell v x)
    (hv : v ≠ .Null) :
    cellAt t.cols r' cnameOut ≠ .Null := by
  rw [hcols]
  unfold cellAt
  rw [hci]
  show (r'.get? j).getD .Null ≠ .Null
  rw [rowPipe_frame s.cols r r' hpipe j hj2 hj6 hj11,
    fill_stage_cell s.cols r j cnameIn v hget happ]
  show fillCell v (cellAt s.cols r cnameIn) ≠ .Null
  exact fillCell_ne_null v _ hv

/-- Claim C9: every row of a successful DimProduct transform has an integer
ProductSubcategoryKey, fixed-point formatted StandardCost and ListPrice
strings carrying exactly two digit characters after the last dot, and no null
in any of the fifteen filled columns (under their output names). -/
theorem c9_invariants (s t : Snapshot) (h : tf_product s = .ok t) :
    ∀ r' ∈ t.rows,
      (∃ n : ℤ, cellAt t.cols r' "ProductSubcategoryKey" = .I n)
      ∧ (∃ q : ℚ, cellAt t.cols r' "StandardCost" = .Str (formatFixed2 q))
      ∧ (∃ q : ℚ, cellAt t.cols r' "ListPrice" = .Str (formatFixed2 q))
      ∧ (∀ str : String,
          (cellAt t.cols r' "StandardCost" = .Str str
            ∨ cellAt t.cols r' "ListPrice" = .Str str) →
          ∃ a b : ℕ, afterLastDot str.data = some [digCh a, digCh b])
      ∧ (∀ c ∈ prodFillColsOut, cellAt t.cols r' c ≠ .Null) := by
  intro r' hr'
  obtain ⟨hcols, _, hmap⟩ := tf_product_ok_elim s t h
  obtain ⟨i, hgi⟩ := List.get?_of_mem hr'
  obtain ⟨r, hraw, hpipe⟩ := mapE_ok_get?_rev _ _ _ hmap i r' hgi
  obtain ⟨hc2, hc6, hc11⟩ := rowPipe_coerced_cells s.cols r r' hpipe
  have hPSK : ∃ n : ℤ, cellAt t.cols r' "ProductSubcategoryKey" = .I n := by
    obtain ⟨x, y, hx, hy, hr2⟩ := hc2
    obtain ⟨n, hn⟩ := toIntScalar_shape x y hy
    refine ⟨n, ?_⟩
    rw [hcols]
    show (r'.get? 2).getD .Null = .I n
    rw [hr2, hn]
    rfl
  have hSC : ∃ q : ℚ, cellAt t.cols r' "StandardCost" = .Str (formatFixed2 q) := by
    obtain ⟨x, y, hx, hy, hr6⟩ := hc6
    obtain ⟨q, hq⟩ := floatFmt_shape x y hy
    refine ⟨q, ?_⟩
    rw [hcols]
    show (r'.get? 6).getD .Null = .Str (formatFixed2 q)
    rw [hr6, hq]
    rfl
  have hLP : ∃ q : ℚ, cellAt t.cols r' "ListPrice" = .Str (formatFixed2 q) := by
    obtain ⟨x, y, hx, hy, hr11⟩ := hc11
    obtain ⟨q, hq⟩ := floatFmt_shape x y hy
    refine ⟨q, ?_⟩
    rw [hcols]
    show (r'.get? 11).getD .Null = .Str (formatFixed2 q)
    rw [hr11, hq]
    rfl
  refine ⟨hPSK, hSC, hLP, ?_, ?_⟩
  · intro str hstr
    rcases hstr with hstr | hstr
    · obtain ⟨q, hq⟩ := hSC
      rw [hq] at hstr
      injection hstr with hs2
      rw [← hs2]
      exact formatFixed2_two_decimals q
    · obtain ⟨q, hq⟩ := hLP
      rw [hq] at hstr
      injection hstr with hs2
      rw [← hs2]
      exact formatFixed2_two_decimals q
  · intro c hc
    fin_cases hc
    · exact cell_not_null_of_fill s t r r' hcols hpipe 3
        "WeightUnitMeasureCode" "WeightUnitMeasureCode" (.Str "NA")
        (by omega) (by omega) (by omega) rfl rfl (fun _ => rfl) (by decide)
    · obtain ⟨n, hn⟩ := hPSK
      rw [hn]
      exact fun hco => Scalar.noConfusion hco
    · exact cell_not_null_of_fill s t r r' hcols hpipe 4
        "SizeUnitMeasureCode" "SizeUnitMeasureCode" (.Str "NA")
        (by omega) (by omega) (by omega) rfl rfl (fun _ => rfl) (by decide)
    · obtain ⟨q, hq⟩ := hSC
      rw [hq]
      exact fun hco => Scalar.noConfusion hco
    · obtain ⟨q, hq⟩ := hLP
      rw [hq]
      exact fun hco => Scalar.noConfusion hco
    · exact cell_not_null_of_fill s t r r' hcols hpipe 16
        "ProductLine" "ProductLine" (.Str "NA")
        (by omega) (by omega) (by omega) rfl rfl (fun _ => rfl) (by decide)
    · exact cell_not_null_of_fill s t r r' hcols hpipe 18
        "Class" "Class" (.Str "NA")
        (by omega) (by omega) (by omega) rfl rfl (fun _ => rfl) (by decide)
    · exact cell_not_null_of_fill s t r r' hcols hpipe 19
        "Style" "Style" (.Str "NA")
        (by omega) (by omega) (by omega) rfl rfl (fun _ => rfl) (by decide)
    · exact cell_not_null_of_fill s t r r' hcols hpipe 12
        "Size" "Size" (.Str "NA")
        (by omega) (by omega) (by omega) rfl rfl (fun _ => rfl) (by decide)
    · exact cell_not_null_of_fill s t r r' hcols hpipe 20
        "ModelName" "ModelName" (.Str "NA")
        (by omega) (by omega) (by omega) rfl rfl (fun _ => rfl) (by decide)
    · exact cell_not_null_of_fill s t r r' hcols hpipe 21
        "Description" "EnglishDescription" (.Str "NA")
        (by omega) (by omega) (by omega) rfl rfl (fun _ => rfl) (by decide)
    · exact cell_not_null_of_fill s t r r' hcols hpipe 17
        "DealerPrice" "DealerPrice" (.Str "0")
        (by omega) (by omega) (by omega) rfl rfl (fun _ => rfl) (by decide)
    · exact cell_not_null_of_fill s t r r' hcols hpipe 14
        "Weight" "Weight" (.Str "0")
        (by omega) (by omega) (by omega) rfl rfl (fun _ => rfl) (by decide)
    · exact cell_not_null_of_fill s t r r' hcols hpipe 23
        "EndDate" "EndDate" (.Str "NA")
        (by omega) (by omega) (by omega) rfl rfl (fun _ => rfl) (by decide)
    · exact cell_not_null_of_fill s t r r' hcols hpipe 24
        "Status" "Status" (.Str "NA")
        (by omega) (by omega) (by omega) rfl rfl (fun _ => rfl) (by decide)

theorem c9_invariants_witness :
    cellAt tProd.cols tRow0 "Weight" ≠ .Null
    ∧ cellAt tProd.cols tRow0 "Description" ≠ .Null := by
  have hmem : tRow0 ∈ tProd.rows := by decide
  exact ⟨(c9_invariants sProd tProd rfl tRow0 hmem).2.2.2.2 "Weight" (by decide),
    (c9_invariants sProd tProd rfl tRow0 hmem).2.2.2.2 "Description" (by decide)⟩

end Etl
